import Mathlib

/-!
Message slot driver: a shallow embedding of `message_slot.c`

The kernel module keeps a table `message_slots[MAX_SLOTS]` of slots, each slot
owning a singly linked list of channels, and one `msg_slot_fd` context per open
file.  The embedding below passes this state explicitly.

Modelling conventions:

* a C pointer is either `none` (NULL) or an index: a slot pointer is its index
  in `message_slots`, a channel pointer is the position of the node in the
  slot's list;
* `kmalloc` may fail; every call site takes a boolean saying whether the
  allocation succeeds;
* user-space memory is a partial map from offsets (relative to the pointer the
  caller passed) to bytes, `none` being an address on which the access faults;
* `device_read` and `device_write` return `none` when the C code would
  dereference a slot pointer that refers to no slot or read past the end of a
  message buffer (such states are not reachable through the driver's entry
  points);
* scalar types follow the LP64 kernel ABI: `int` and `unsigned int` are 32 bits
  wide, `size_t` and `unsigned long` 64 bits.
-/

namespace MessageSlot

/-! ## Constants of `message_slot.h` -/

/-- One C `char`. -/
abbrev Byte := Fin 256

/-- Major device number. -/
def MAJOR_NUM : Nat := 235

/-- Return value of a successful call. -/
def SUCCESS : Int := 0

/-- Maximum message length. -/
def MAX_MSG_LEN : Nat := 128

/-- Maximum number of message slots (minor numbers 0-255). -/
def MAX_SLOTS : Nat := 256

/-- Request number built by the kernel's `_IOW(type, nr, unsigned long)`:
direction "write" in bits 30-31, argument size (8) in bits 16-29, type in bits
8-15, number in bits 0-7. -/
def IOW (type nr : Nat) : Nat := 1 * 2 ^ 30 + 8 * 2 ^ 16 + type * 2 ^ 8 + nr

/-- Control request selecting the channel of a file descriptor. -/
def MSG_SLOT_CHANNEL : Nat := IOW MAJOR_NUM 0

/-- Control request setting the censorship mode of a file descriptor. -/
def MSG_SLOT_SET_CEN : Nat := IOW MAJOR_NUM 1

/-- The character written at censored positions. -/
def hashChar : Byte := 35

/-! ## Results -/

/-- Error numbers the driver returns (negated) to its caller. -/
inductive Errno where
  | EINVAL
  | ENOMEM
  | EFAULT
  | EMSGSIZE
  | EWOULDBLOCK
  | ENOSPC
deriving DecidableEq, Repr

/-- Value returned by an entry point: `val n` for a plain return of `n`,
`err e` for `return -e`. -/
inductive Ret where
  | val (n : Int)
  | err (e : Errno)
deriving DecidableEq, Repr

/-! ## Integer conversions -/

/-- Conversion of a `size_t` / `unsigned int` value to `int`. -/
def int_of_nat (n : Nat) : Int :=
  if n % 4294967296 < 2147483648 then ((n % 4294967296 : Nat) : Int)
  else ((n % 4294967296 : Nat) : Int) - 4294967296

/-- Conversion of an `int` to `size_t`, as done by the usual arithmetic
conversions in `message_length > length` and for the count passed to
`copy_to_user`. -/
def size_t_of_int (i : Int) : Nat := (i % 18446744073709551616).toNat

/-- Conversion of an `unsigned long` to `unsigned int`. -/
def uint_of_ulong (n : Nat) : Nat := n % 4294967296

/-! ## Data structures -/

/-- Channel structure: a node of a slot's linked list (the `next` pointer is
the tail of the list holding the node). -/
structure channel where
  channel_id : Nat
  message_data : Option (List Byte)
  message_length : Int
deriving DecidableEq, Repr

/-- Message slot structure. -/
structure message_slot where
  minor_number : Int
  channels : List channel
deriving DecidableEq, Repr

/-- File descriptor context, stored in `file->private_data`. -/
structure msg_slot_fd where
  channel_id : Nat
  censorship_enabled : Int
  slot : Nat
deriving DecidableEq, Repr

/-- User-space memory seen through a pointer: the byte at each offset, or
`none` where an access faults. -/
abbrev UserMem := Nat → Option Byte

/-- Kernel state of the module: the table `message_slots` and, for every
`struct file`, its `private_data`. -/
structure State where
  message_slots : Nat → Option message_slot
  files : Nat → Option msg_slot_fd

/-- State right after module load: every table entry is NULL, no file is
open. -/
def init_state : State :=
  { message_slots := fun _ => none, files := fun _ => none }

/-! ## User-space copies -/

/-- Kernel `copy_from_user(to, from + off, n)`: the `n` bytes read, or `none`
when some byte cannot be read (non-zero return). -/
def copy_from_user (src : UserMem) : Nat → Nat → Option (List Byte)
  | _, 0 => some []
  | off, n + 1 =>
    match src off with
    | none => none
    | some b =>
      match copy_from_user src (off + 1) n with
      | none => none
      | some rest => some (b :: rest)

/-- Kernel `copy_to_user(to + off, from, n)` with `from` holding exactly the
`n` bytes to copy: the number of bytes that could not be copied and the
resulting user memory. Bytes are stored up to the first faulting address. -/
def copy_to_user (dst : UserMem) : Nat → List Byte → Nat × UserMem
  | _, [] => (0, dst)
  | off, b :: rest =>
    match dst off with
    | none => ((b :: rest).length, dst)
    | some _ => copy_to_user (Function.update dst off (some b)) (off + 1) rest

/-! ## Device functions -/

/-- Handler of `open`: `minor` is `iminor(inode)`, `file` the new `struct file`;
`km_slot` and `km_fd` tell whether the two `kmalloc` calls succeed. -/
def device_open (s : State) (minor : Int) (file : Nat) (km_slot km_fd : Bool) :
    State × Ret :=
  if minor < 0 ∨ minor ≥ (MAX_SLOTS : Int) then (s, Ret.err Errno.EINVAL)
  else
    let created : Option State :=
      match s.message_slots minor.toNat with
      | some _ => some s
      | none =>
        if km_slot then
          some { s with
            message_slots := Function.update s.message_slots minor.toNat
              (some { minor_number := minor, channels := [] }) }
        else none
    match created with
    | none => (s, Ret.err Errno.ENOMEM)
    | some s1 =>
      if km_fd then
        ({ s1 with
            files := Function.update s1.files file
              (some { channel_id := 0, censorship_enabled := 0, slot := minor.toNat }) },
          Ret.val SUCCESS)
      else (s1, Ret.err Errno.ENOMEM)

/-- Handler of `release`: frees the file descriptor context; the `struct file`
itself goes away with the call. -/
def device_release (s : State) (file : Nat) : State × Ret :=
  ({ s with files := Function.update s.files file none }, Ret.val SUCCESS)

/-- Walk of the linked list in `find_channel`: position and contents of the
first node with the given id. -/
def find_channel_in : List channel → Nat → Option (Nat × channel)
  | [], _ => none
  | curr :: next, channel_id =>
    if curr.channel_id = channel_id then some (0, curr)
    else
      match find_channel_in next channel_id with
      | none => none
      | some (pos, c) => some (pos + 1, c)

/-- Find a channel by id in a message slot. -/
def find_channel (slot : message_slot) (channel_id : Nat) : Option (Nat × channel) :=
  find_channel_in slot.channels channel_id

/-- Create a new channel in a message slot: the slot afterwards and the new
node (at the front of the list), or the untouched slot and NULL when the
allocation fails. -/
def create_channel (slot : message_slot) (channel_id : Nat) (km : Bool) :
    message_slot × Option (Nat × channel) :=
  if km then
    let new_channel : channel :=
      { channel_id := channel_id, message_data := none, message_length := 0 }
    ({ slot with channels := new_channel :: slot.channels }, some (0, new_channel))
  else (slot, none)

/-- Loop of `apply_censorship`: `todo` iterations remain, `i` is the loop
counter and `dest` holds `dest[0..i)`. -/
def apply_censorship_loop (src : UserMem) : Nat → Nat → List Byte → Except Errno (List Byte)
  | 0, _, dest => Except.ok dest
  | todo + 1, i, dest =>
    match src i with
    | none => Except.error Errno.EFAULT
    | some temp_char =>
      apply_censorship_loop src todo (i + 1)
        (dest ++ [if (i + 1) % 3 = 0 then hashChar else temp_char])

/-- Copy `length` bytes from user space, replacing every third character:
the filled buffer on return 0, the error otherwise. -/
def apply_censorship (src : UserMem) (length : Int) : Except Errno (List Byte) :=
  apply_censorship_loop src length.toNat 0 []

/-- Handler of `write`. `buffer` is `none` for a NULL pointer; `km_chan` and
`km_msg` tell whether the `kmalloc` of a new channel node and of the message
buffer succeed. -/
def device_write (s : State) (file : Nat) (buffer : Option UserMem) (length : Nat)
    (km_chan km_msg : Bool) : Option (State × Ret) :=
  match s.files file with
  | none => some (s, Ret.err Errno.EINVAL)
  | some fd_data =>
    if fd_data.channel_id = 0 then some (s, Ret.err Errno.EINVAL)
    else if length = 0 ∨ length > MAX_MSG_LEN then some (s, Ret.err Errno.EMSGSIZE)
    else
      match buffer with
      | none => some (s, Ret.err Errno.EINVAL)
      | some src =>
        match s.message_slots fd_data.slot with
        | none => none
        | some slot =>
          let found : State × message_slot × Option (Nat × channel) :=
            match find_channel slot fd_data.channel_id with
            | some chan => (s, slot, some chan)
            | none =>
              let r := create_channel slot fd_data.channel_id km_chan
              ({ s with
                  message_slots := Function.update s.message_slots fd_data.slot (some r.1) },
                r.1, r.2)
          match found with
          | (s1, _, none) => some (s1, Ret.err Errno.ENOMEM)
          | (s1, slot1, some (pos, chan)) =>
            if km_msg then
              let copied : Except Errno (List Byte) :=
                if fd_data.censorship_enabled ≠ 0 then
                  apply_censorship src (int_of_nat length)
                else
                  match copy_from_user src 0 length with
                  | none => Except.error Errno.EFAULT
                  | some bytes => Except.ok bytes
              match copied with
              | Except.error e => some (s1, Ret.err e)
              | Except.ok new_message =>
                let chan1 : channel :=
                  { chan with
                    message_data := some new_message,
                    message_length := int_of_nat length }
                some ({ s1 with
                    message_slots := Function.update s1.message_slots fd_data.slot
                      (some { slot1 with channels := slot1.channels.set pos chan1 }) },
                  Ret.val (length : Int))
            else some (s1, Ret.err Errno.ENOMEM)

/-- Handler of `read`: the state, the return value and the destination memory
after the call. -/
def device_read (s : State) (file : Nat) (buffer : UserMem) (length : Nat) :
    Option (State × Ret × UserMem) :=
  match s.files file with
  | none => some (s, Ret.err Errno.EINVAL, buffer)
  | some fd_data =>
    if fd_data.channel_id = 0 then some (s, Ret.err Errno.EINVAL, buffer)
    else
      match s.message_slots fd_data.slot with
      | none => none
      | some slot =>
        match find_channel slot fd_data.channel_id with
        | none => some (s, Ret.err Errno.EINVAL, buffer)
        | some (_, chan) =>
          let message_length := chan.message_length
          let message_data := chan.message_data
          if message_length = 0 ∨ message_data = none then
            some (s, Ret.err Errno.EWOULDBLOCK, buffer)
          else if size_t_of_int message_length > length then
            some (s, Ret.err Errno.ENOSPC, buffer)
          else
            match message_data with
            | none => some (s, Ret.err Errno.EWOULDBLOCK, buffer)
            | some data =>
              if size_t_of_int message_length > data.length then none
              else
                match copy_to_user buffer 0 (data.take (size_t_of_int message_length)) with
                | (0, buffer1) => some (s, Ret.val message_length, buffer1)
                | (_ + 1, buffer1) => some (s, Ret.err Errno.EFAULT, buffer1)

/-- Handler of `ioctl`. -/
def device_ioctl (s : State) (file : Nat) (ioctl_command_id : Nat) (ioctl_param : Nat) :
    State × Ret :=
  match s.files file with
  | none => (s, Ret.err Errno.EINVAL)
  | some fd_data =>
    let param := uint_of_ulong ioctl_param
    if ioctl_command_id = MSG_SLOT_CHANNEL then
      if param = 0 then (s, Ret.err Errno.EINVAL)
      else
        ({ s with files := Function.update s.files file (some { fd_data with channel_id := param }) },
          Ret.val SUCCESS)
    else if ioctl_command_id = MSG_SLOT_SET_CEN then
      if param ≠ 0 ∧ param ≠ 1 then (s, Ret.err Errno.EINVAL)
      else
        ({ s with
            files := Function.update s.files file
              (some { fd_data with censorship_enabled := int_of_nat param }) },
          Ret.val SUCCESS)
    else (s, Ret.err Errno.EINVAL)

/-! ## Concrete buffers and states used to exercise the theorems -/

/-- The five bytes of "hello". -/
def ex_hello : List Byte := [104, 101, 108, 108, 111]

/-- User memory holding exactly the bytes of `p` (any access beyond them
faults). -/
def user_mem_of (p : List Byte) : UserMem := fun i => p[i]?

/-- A writable, zero-filled user buffer of `n` bytes. -/
def user_buf (n : Nat) : UserMem := fun i => if i < n then some 0 else none

/-- File descriptor context bound to slot 3 with channel 7 selected. -/
def ex_fd : msg_slot_fd := { channel_id := 7, censorship_enabled := 0, slot := 3 }

/-- State after opening file 0 on minor 3 and selecting channel 7 on it. -/
def ex_state : State :=
  (device_ioctl (device_open init_state 3 0 true true).1 0 MSG_SLOT_CHANNEL 7).1

/-- State `ex_state` with censorship switched on for file 0. -/
def ex_state_cen : State := (device_ioctl ex_state 0 MSG_SLOT_SET_CEN 1).1

/-- The first `n` bytes of a user buffer. -/
def prefix_of (m : UserMem) (n : Nat) : List (Option Byte) := (List.range n).map m

/-- The node `find_channel` yields for channel `id` in the slot at index `m`:
`none` when the table entry is NULL, `some none` when the slot has no channel
with that id. -/
def channel_of (s : State) (m id : Nat) : Option (Option channel) :=
  (s.message_slots m).map (fun slot => (find_channel slot id).map Prod.snd)

/-- State reached from `ex_state` by writing "hello" to channel 7 through file
0, then opening file 1 on the same minor and selecting channel 8 on it. -/
def ex_two : State :=
  match device_write ex_state 0 (some (user_mem_of ex_hello)) 5 true true with
  | none => ex_state
  | some (s1, _) => (device_ioctl (device_open s1 3 1 true true).1 1 MSG_SLOT_CHANNEL 8).1

/-- State reached from `ex_state` by a write to channel 7 whose source buffer
faults on its first byte. -/
def ex_faulted : State :=
  match device_write ex_state 0 (some (user_mem_of [])) 5 true true with
  | none => ex_state
  | some (s1, _) => s1

/-! ## Sequences of operations -/

/-- One call of an entry point, with everything its environment chooses: the
arguments, the user buffers and the outcome of each `kmalloc`. -/
inductive Op where
  | o_open (minor : Int) (file : Nat) (km_slot km_fd : Bool)
  | o_release (file : Nat)
  | o_ioctl (file : Nat) (ioctl_command_id ioctl_param : Nat)
  | o_read (file : Nat) (buffer : UserMem) (length : Nat)
  | o_write (file : Nat) (buffer : Option UserMem) (length : Nat) (km_chan km_msg : Bool)

/-- State after one call (`none` when the call has no defined behaviour). -/
def step (s : State) : Op → Option State
  | Op.o_open minor file km_slot km_fd => some (device_open s minor file km_slot km_fd).1
  | Op.o_release file => some (device_release s file).1
  | Op.o_ioctl file cmd param => some (device_ioctl s file cmd param).1
  | Op.o_read file buffer length =>
    match device_read s file buffer length with
    | none => none
    | some r => some r.1
  | Op.o_write file buffer length km_chan km_msg =>
    match device_write s file buffer length km_chan km_msg with
    | none => none
    | some r => some r.1

/-- State after a sequence of calls. -/
def run (s : State) : List Op → Option State
  | [] => some s
  | op :: rest =>
    match step s op with
    | none => none
    | some s1 => run s1 rest

/-- States the driver can be in: those reached from the state after module load
by a sequence of open, release, ioctl, read and write calls. -/
def Reachable (s : State) : Prop := ∃ ops, run init_state ops = some s

/-- The calls leading to `ex_two`. -/
def ex_ops : List Op :=
  [Op.o_open 3 0 true true, Op.o_ioctl 0 MSG_SLOT_CHANNEL 7,
    Op.o_write 0 (some (user_mem_of ex_hello)) 5 true true,
    Op.o_open 3 1 true true, Op.o_ioctl 1 MSG_SLOT_CHANNEL 8]

/-- A channel either has no buffer and length 0, or a buffer of 1..128 bytes
whose size is the recorded length. -/
def payload_ok (ch : channel) : Prop :=
  (ch.message_data = none ∧ ch.message_length = 0) ∨
    ∃ data, ch.message_data = some data ∧ 1 ≤ data.length ∧ data.length ≤ MAX_MSG_LEN ∧
      ch.message_length = (data.length : Int)

/-- Well-formedness of a slot: channel ids are pairwise distinct and non-zero,
and every channel satisfies `payload_ok`. -/
def slot_ok (slot : message_slot) : Prop :=
  (slot.channels.map channel.channel_id).Nodup ∧
    ∀ ch, ch ∈ slot.channels → ch.channel_id ≠ 0 ∧ payload_ok ch

/-- Well-formedness of a state: every slot is well formed and every file
descriptor context points to an existing slot. -/
def state_ok (s : State) : Prop :=
  (∀ m slot, s.message_slots m = some slot → slot_ok slot) ∧
    ∀ file fd, s.files file = some fd → ∃ slot, s.message_slots fd.slot = some slot

/-- A sequence of control calls on one file: the final state and the value each
call returned. -/
def run_ioctls (s : State) (file : Nat) : List (Nat × Nat) → State × List Ret
  | [] => (s, [])
  | (cmd, param) :: rest =>
    let r := device_ioctl s file cmd param
    let rr := run_ioctls r.1 file rest
    (rr.1, r.2 :: rr.2)

/-- Reference value of `channel_id` after a sequence of control calls, in the
words of the spec ("the latest value wins"): the argument, as an `unsigned int`,
of the last `MSG_SLOT_CHANNEL` call that returned `SUCCESS`, or the initial
value when there is none. -/
def spec_selected_channel (init : Nat) : List (Nat × Nat) → List Ret → Nat
  | (cmd, param) :: cmds, r :: rets =>
    spec_selected_channel
      (if cmd = MSG_SLOT_CHANNEL ∧ r = Ret.val SUCCESS then uint_of_ulong param else init)
      cmds rets
  | _, _ => init

/-- Reference value of `censorship_enabled` after a sequence of control calls:
the argument of the last `MSG_SLOT_SET_CEN` call that returned `SUCCESS`, or
the initial value when there is none. -/
def spec_transform (init : Int) : List (Nat × Nat) → List Ret → Int
  | (cmd, param) :: cmds, r :: rets =>
    spec_transform
      (if cmd = MSG_SLOT_SET_CEN ∧ r = Ret.val SUCCESS then int_of_nat (uint_of_ulong param)
        else init)
      cmds rets
  | _, _ => init

/-! ## Auxiliary lemmas -/

/-- Lengths up to 128 convert to `int` unchanged. -/
theorem int_of_nat_small (n : Nat) (h : n ≤ 128) : int_of_nat n = (n : Int) := by
  unfold int_of_nat
  have h1 : n % 4294967296 = n := Nat.mod_eq_of_lt (by omega)
  rw [h1]
  simp only [ite_eq_left_iff, not_lt]
  intro h2
  omega

/-- A non-negative `int` converts to `size_t` unchanged. -/
theorem size_t_of_int_nat (n : Nat) (h : n < 2147483648) : size_t_of_int (n : Int) = n := by
  unfold size_t_of_int
  omega

/-- The node returned by the list walk sits at the returned position and has the
requested id. -/
theorem find_channel_in_some (l : List channel) (id pos : Nat) (c : channel)
    (h : find_channel_in l id = some (pos, c)) : l[pos]? = some c ∧ c.channel_id = id := by
  induction l generalizing pos with
  | nil => simp [find_channel_in] at h
  | cons curr next ih =>
    simp only [find_channel_in] at h
    split at h
    · rename_i hid
      simp only [Option.some.injEq, Prod.mk.injEq] at h
      obtain ⟨rfl, rfl⟩ := h
      exact ⟨by simp, hid⟩
    · split at h
      · simp at h
      · rename_i p q heq
        simp only [Option.some.injEq, Prod.mk.injEq] at h
        obtain ⟨rfl, rfl⟩ := h
        have := ih _ heq
        simpa using this

/-- Overwriting the found node with a node of the same id: the walk finds the new
node at the same position. -/
theorem find_channel_in_set (l : List channel) (id pos : Nat) (c c1 : channel)
    (h : find_channel_in l id = some (pos, c)) (h1 : c1.channel_id = id) :
    find_channel_in (l.set pos c1) id = some (pos, c1) := by
  induction l generalizing pos with
  | nil => simp [find_channel_in] at h
  | cons curr next ih =>
    simp only [find_channel_in] at h
    split at h
    · simp only [Option.some.injEq, Prod.mk.injEq] at h
      obtain ⟨rfl, rfl⟩ := h
      simp [find_channel_in, h1]
    · rename_i hne
      split at h
      · simp at h
      · rename_i p q heq
        simp only [Option.some.injEq, Prod.mk.injEq] at h
        obtain ⟨rfl, rfl⟩ := h
        simp [find_channel_in, hne, ih _ heq]

/-- Overwriting the node found for `id` does not change what the walk finds for
another id. -/
theorem find_channel_in_set_ne (l : List channel) (id id1 pos : Nat) (c c1 : channel)
    (h : find_channel_in l id = some (pos, c)) (h1 : c1.channel_id = id) (hne : id1 ≠ id) :
    find_channel_in (l.set pos c1) id1 = find_channel_in l id1 := by
  induction l generalizing pos with
  | nil => simp [find_channel_in] at h
  | cons curr next ih =>
    simp only [find_channel_in] at h
    split at h
    · rename_i hid
      simp only [Option.some.injEq, Prod.mk.injEq] at h
      obtain ⟨rfl, rfl⟩ := h
      have e1 : ¬ curr.channel_id = id1 := by omega
      have e2 : ¬ c1.channel_id = id1 := by omega
      simp [find_channel_in, e1, e2]
    · rename_i hne1
      split at h
      · simp at h
      · rename_i p q heq
        simp only [Option.some.injEq, Prod.mk.injEq] at h
        obtain ⟨rfl, rfl⟩ := h
        simp [find_channel_in, ih _ heq]

/-- Copying from memory that holds the bytes of `p` yields `p`. -/
theorem copy_from_user_of_agree (src : UserMem) (p : List Byte) (off : Nat)
    (h : ∀ i, i < p.length → src (off + i) = p[i]?) :
    copy_from_user src off p.length = some p := by
  induction p generalizing off with
  | nil => simp [copy_from_user]
  | cons b rest ih =>
    have h0 := h 0 (by simp)
    simp only [Nat.add_zero, List.getElem?_cons_zero] at h0
    have hrest : ∀ i, i < rest.length → src (off + 1 + i) = rest[i]? := by
      intro i hi
      have := h (i + 1) (by simp; omega)
      simpa [Nat.add_assoc, Nat.add_comm 1 i] using this
    simp [copy_from_user, h0, ih _ hrest]

/-- A successful `copy_from_user` returns the `n` bytes that the source holds. -/
theorem copy_from_user_some (src : UserMem) (n off : Nat) (bytes : List Byte)
    (h : copy_from_user src off n = some bytes) :
    bytes.length = n ∧ ∀ i, i < n → src (off + i) = bytes[i]? := by
  induction n generalizing off bytes with
  | zero =>
    simp [copy_from_user] at h
    subst h
    simp
  | succ n ih =>
    simp only [copy_from_user] at h
    split at h
    · simp at h
    · rename_i b hb
      split at h
      · simp at h
      · rename_i rest hrest
        simp only [Option.some.injEq] at h
        subst h
        obtain ⟨hl, hi⟩ := ih _ _ hrest
        refine ⟨by simp [hl], ?_⟩
        intro i hlt
        cases i with
        | zero => simpa using hb
        | succ j =>
          have := hi j (by omega)
          simpa [Nat.add_assoc, Nat.add_comm 1 j] using this

/-- Copying into writable memory copies everything, stores the data at the target
offsets and changes nothing else. -/
theorem copy_to_user_ok (data : List Byte) (dst : UserMem) (off : Nat)
    (h : ∀ i, i < data.length → (dst (off + i)).isSome) :
    ∃ dst1, copy_to_user dst off data = (0, dst1) ∧
      (∀ i, i < data.length → dst1 (off + i) = data[i]?) ∧
      (∀ j, j < off ∨ off + data.length ≤ j → dst1 j = dst j) := by
  induction data generalizing dst off with
  | nil => exact ⟨dst, by simp [copy_to_user]⟩
  | cons b rest ih =>
    have h0 := h 0 (by simp)
    simp only [Nat.add_zero] at h0
    obtain ⟨b0, hb0⟩ := Option.isSome_iff_exists.mp h0
    have hrest : ∀ i, i < rest.length →
        ((Function.update dst off (some b)) (off + 1 + i)).isSome := by
      intro i hi
      have := h (i + 1) (by simp; omega)
      rw [Function.update_noteq (by omega)]
      simpa [Nat.add_assoc, Nat.add_comm 1 i] using this
    obtain ⟨dst1, hc, hin, hout⟩ := ih _ _ hrest
    refine ⟨dst1, by simp [copy_to_user, hb0, hc], ?_, ?_⟩
    · intro i hi
      cases i with
      | zero =>
        rw [hout _ (Or.inl (by omega))]
        simp
      | succ j =>
        have := hin j (by simpa using hi)
        simpa [Nat.add_assoc, Nat.add_comm 1 j] using this
    · intro j hj
      have hj1 : j < off + 1 ∨ off + 1 + rest.length ≤ j := by
        simp only [List.length_cons] at hj
        omega
      rw [hout j hj1]
      have : j ≠ off := by
        simp only [List.length_cons] at hj
        omega
      rw [Function.update_noteq this]

/-- Reading a channel that holds `msg` into a large enough writable buffer delivers
`msg`. -/
theorem device_read_stored (s : State) (g : Nat) (gd : msg_slot_fd) (slot : message_slot)
    (pos : Nat) (ch : channel) (msg : List Byte) (dst : UserMem) (cap : Nat)
    (hg : s.files g = some gd) (hc : gd.channel_id ≠ 0)
    (hs : s.message_slots gd.slot = some slot)
    (hfind : find_channel slot gd.channel_id = some (pos, ch))
    (hd : ch.message_data = some msg) (hl : ch.message_length = (msg.length : Int))
    (h1 : 1 ≤ msg.length) (h128 : msg.length ≤ 128) (hcap : msg.length ≤ cap)
    (hdst : ∀ i, i < cap → (dst i).isSome) :
    ∃ dst1, device_read s g dst cap = some (s, Ret.val (msg.length : Int), dst1) ∧
      (∀ i, i < msg.length → dst1 i = msg[i]?) ∧
      (∀ j, msg.length ≤ j → dst1 j = dst j) := by
  have hsz : size_t_of_int (msg.length : Int) = msg.length :=
    size_t_of_int_nat _ (by omega)
  obtain ⟨dst1, hcopy, hin, hout⟩ := copy_to_user_ok msg dst 0
    (fun i hi => by simpa using hdst i (by omega))
  refine ⟨dst1, ?_, ?_, ?_⟩
  · have hne : ¬ ((msg.length : Int) = 0) := by omega
    have hle : ¬ (msg.length > cap) := by omega
    simp [device_read, hg, hc, hs, hfind, hd, hl, hsz, hne, hle, hcopy]
  · intro i hi
    simpa using hin i hi
  · intro j hj
    exact hout j (Or.inr (by omega))

/-- Shape of the state after a write that returned a value: the addressed channel
holds the copied message, all other channels of the slot are as before. -/
theorem device_write_ok (s s1 : State) (file : Nat) (src : UserMem) (len : Nat)
    (kc km : Bool) (n : Int)
    (h : device_write s file (some src) len kc km = some (s1, Ret.val n)) :
    ∃ fd slot slot1 pos msg,
      s.files file = some fd ∧ fd.channel_id ≠ 0 ∧ 1 ≤ len ∧ len ≤ 128 ∧ n = (len : Int) ∧
      s.message_slots fd.slot = some slot ∧
      (fd.censorship_enabled = 0 → copy_from_user src 0 len = some msg) ∧
      (fd.censorship_enabled ≠ 0 → apply_censorship src (int_of_nat len) = Except.ok msg) ∧
      s1.files = s.files ∧
      s1.message_slots = Function.update s.message_slots fd.slot (some slot1) ∧
      slot1.minor_number = slot.minor_number ∧
      find_channel slot1 fd.channel_id =
        some (pos, { channel_id := fd.channel_id, message_data := some msg,
                     message_length := (len : Int) }) ∧
      ∀ id1, id1 ≠ fd.channel_id →
        (find_channel slot1 id1).map Prod.snd = (find_channel slot id1).map Prod.snd := by
  unfold device_write at h
  cases hf : s.files file with
  | none => simp [hf] at h
  | some fd =>
    simp only [hf] at h
    by_cases hc : fd.channel_id = 0
    · simp [hc] at h
    · by_cases hl : len = 0 ∨ len > MAX_MSG_LEN
      · simp [hc, hl] at h
      · simp only [hc, hl, if_false] at h
        have hlen : 1 ≤ len ∧ len ≤ 128 := by
          simp only [MAX_MSG_LEN] at hl
          omega
        cases hs : s.message_slots fd.slot with
        | none => simp [hs] at h
        | some slot =>
          simp only [hs] at h
          cases hfind : find_channel slot fd.channel_id with
          | some chan =>
            obtain ⟨pos, ch⟩ := chan
            simp only [hfind] at h
            cases km with
            | false => simp at h
            | true =>
              simp only [if_true] at h
              split at h
              · simp at h
              · rename_i msg hcp
                simp only [Option.some.injEq, Prod.mk.injEq, Ret.val.injEq] at h
                obtain ⟨hs1, hn⟩ := h
                subst hs1
                have hid := (find_channel_in_some _ _ _ _ hfind).2
                refine ⟨fd, slot,
                  message_slot.mk slot.minor_number (slot.channels.set pos
                    (channel.mk ch.channel_id (some msg) (int_of_nat len))),
                  pos, msg, rfl, hc, hlen.1, hlen.2, hn.symm, hs, ?_, ?_,
                  rfl, rfl, rfl, ?_, ?_⟩
                · intro h0
                  rw [if_neg (not_not.mpr h0)] at hcp
                  split at hcp
                  · simp at hcp
                  · rename_i bytes hb
                    simp only [Except.ok.injEq] at hcp
                    rw [hb, hcp]
                · intro h0
                  rw [if_pos h0] at hcp
                  exact hcp
                · simp only [find_channel, int_of_nat_small len hlen.2]
                  have := find_channel_in_set slot.channels fd.channel_id pos ch
                    { channel_id := ch.channel_id, message_data := some msg,
                      message_length := (len : Int) } hfind hid
                  rw [this, hid]
                · intro id1 hne
                  simp only [find_channel]
                  rw [find_channel_in_set_ne slot.channels fd.channel_id id1 pos ch
                    (channel.mk ch.channel_id (some msg) (int_of_nat len)) hfind hid hne]
          | none =>
            simp only [hfind] at h
            cases kc with
            | false => simp [create_channel] at h
            | true =>
              simp only [create_channel, if_true] at h
              cases km with
              | false => simp at h
              | true =>
                simp only [if_true] at h
                split at h
                · simp at h
                · rename_i msg hcp
                  simp only [Option.some.injEq, Prod.mk.injEq, Ret.val.injEq] at h
                  obtain ⟨hs1, hn⟩ := h
                  subst hs1
                  refine ⟨fd, slot,
                    message_slot.mk slot.minor_number
                      (channel.mk fd.channel_id (some msg) (int_of_nat len) :: slot.channels),
                    0, msg, rfl, hc, hlen.1, hlen.2, hn.symm, hs, ?_, ?_,
                    rfl, ?_, rfl, ?_, ?_⟩
                  · intro h0
                    rw [if_neg (not_not.mpr h0)] at hcp
                    split at hcp
                    · simp at hcp
                    · rename_i bytes hb
                      simp only [Except.ok.injEq] at hcp
                      rw [hb, hcp]
                  · intro h0
                    rw [if_pos h0] at hcp
                    exact hcp
                  · simp only [Function.update_idem, List.set_cons_zero]
                  · simp [find_channel, find_channel_in, int_of_nat_small len hlen.2]
                  · intro id1 hne
                    have : ¬ fd.channel_id = id1 := fun e => hne e.symm
                    simp only [find_channel, find_channel_in, this, if_false]
                    cases find_channel_in slot.channels id1 with
                    | none => rfl
                    | some p => rfl

/-- Result of the censorship loop: the bytes already in `dest`, followed by the
source bytes with every third position replaced. -/
theorem apply_censorship_loop_ok (src : UserMem) (todo i : Nat) (dest msg : List Byte)
    (h : apply_censorship_loop src todo i dest = Except.ok msg) :
    msg.length = dest.length + todo ∧ (∀ k, k < dest.length → msg[k]? = dest[k]?) ∧
      ∀ k, k < todo → ∃ b, src (i + k) = some b ∧
        msg[dest.length + k]? = some (if (i + k + 1) % 3 = 0 then hashChar else b) := by
  induction todo generalizing i dest with
  | zero =>
    simp only [apply_censorship_loop, Except.ok.injEq] at h
    subst h
    simp
  | succ todo ih =>
    simp only [apply_censorship_loop] at h
    split at h
    · simp at h
    · rename_i b hb
      obtain ⟨hlen, hpre, hpost⟩ := ih _ _ h
      simp only [List.length_append, List.length_singleton] at hlen hpre hpost
      refine ⟨by omega, ?_, ?_⟩
      · intro k hk
        rw [hpre k (by omega), List.getElem?_append_left hk]
      · intro k hk
        cases k with
        | zero =>
          refine ⟨b, by simpa using hb, ?_⟩
          rw [Nat.add_zero, hpre _ (by omega)]
          simp
        | succ j =>
          obtain ⟨b1, hb1, hm⟩ := hpost j (by omega)
          refine ⟨b1, ?_, ?_⟩
          · rw [← hb1]
            congr 1
            omega
          · have e1 : dest.length + (j + 1) = dest.length + 1 + j := by omega
            have e2 : i + (j + 1) + 1 = i + 1 + j + 1 := by omega
            rw [e1, e2]
            exact hm

/-- The censorship loop returns a buffer when every source byte is readable. -/
theorem apply_censorship_loop_total (src : UserMem) (todo i : Nat) (dest : List Byte)
    (h : ∀ k, k < todo → (src (i + k)).isSome) :
    ∃ msg, apply_censorship_loop src todo i dest = Except.ok msg := by
  induction todo generalizing i dest with
  | zero => exact ⟨dest, rfl⟩
  | succ todo ih =>
    have h0 := h 0 (by omega)
    obtain ⟨b, hb⟩ := Option.isSome_iff_exists.mp h0
    simp only [Nat.add_zero] at hb
    have hrest : ∀ k, k < todo → (src (i + 1 + k)).isSome := by
      intro k hk
      have := h (k + 1) (by omega)
      have e : i + (k + 1) = i + 1 + k := by omega
      rwa [e] at this
    obtain ⟨msg, hm⟩ := ih (i + 1) (dest ++ [if (i + 1) % 3 = 0 then hashChar else b]) hrest
    exact ⟨msg, by simp only [apply_censorship_loop, hb, hm]⟩

/-- The only error of the censorship loop is `EFAULT`. -/
theorem apply_censorship_loop_error (src : UserMem) (todo i : Nat) (dest : List Byte) (e : Errno)
    (h : apply_censorship_loop src todo i dest = Except.error e) : e = Errno.EFAULT := by
  induction todo generalizing i dest with
  | zero => simp [apply_censorship_loop] at h
  | succ todo ih =>
    simp only [apply_censorship_loop] at h
    split at h
    · simp only [Except.error.injEq] at h
      exact h.symm
    · exact ih _ _ h

/-- Result of `apply_censorship` on a length up to 128. -/
theorem apply_censorship_ok (src : UserMem) (len : Nat) (msg : List Byte) (hlen : len ≤ 128)
    (h : apply_censorship src (int_of_nat len) = Except.ok msg) :
    msg.length = len ∧ ∀ k, k < len → ∃ b, src k = some b ∧
      msg[k]? = some (if (k + 1) % 3 = 0 then hashChar else b) := by
  unfold apply_censorship at h
  rw [int_of_nat_small len hlen, Int.toNat_ofNat] at h
  obtain ⟨h1, _, h3⟩ := apply_censorship_loop_ok src len 0 [] msg h
  refine ⟨by simpa using h1, ?_⟩
  intro k hk
  obtain ⟨b, hb, hm⟩ := h3 k hk
  exact ⟨b, by simpa using hb, by simpa using hm⟩

/-- After a write that returned a value, every handle on the same slot and channel
reads the stored message. -/
theorem device_read_after_write (s s1 : State) (file : Nat) (src : UserMem) (len : Nat)
    (kc km : Bool) (n : Int)
    (hw : device_write s file (some src) len kc km = some (s1, Ret.val n)) :
    ∃ fd msg, s.files file = some fd ∧ s1.files = s.files ∧ msg.length = len ∧
      n = (len : Int) ∧
      (fd.censorship_enabled = 0 → copy_from_user src 0 len = some msg) ∧
      (fd.censorship_enabled ≠ 0 → apply_censorship src (int_of_nat len) = Except.ok msg) ∧
      (∃ slot1 pos ch, s1.message_slots fd.slot = some slot1 ∧
        find_channel slot1 fd.channel_id = some (pos, ch) ∧ ch.message_data = some msg ∧
        ch.message_length = (len : Int)) ∧
      ∀ (g : Nat) (gd : msg_slot_fd) (dst : UserMem) (cap : Nat),
        s1.files g = some gd → gd.slot = fd.slot → gd.channel_id = fd.channel_id →
        len ≤ cap → (∀ i, i < cap → (dst i).isSome) →
        ∃ dst1, device_read s1 g dst cap = some (s1, Ret.val (len : Int), dst1) ∧
          (∀ i, i < len → dst1 i = msg[i]?) ∧ (∀ j, len ≤ j → dst1 j = dst j) := by
  obtain ⟨fd, slot, slot1, pos, msg, hfd, hc, h1, h128, hn, hs, hcp0, hcp1, hfiles, hslots,
    _, hfind, _⟩ := device_write_ok s s1 file src len kc km n hw
  have hmsg : msg.length = len := by
    by_cases h0 : fd.censorship_enabled = 0
    · exact (copy_from_user_some src len 0 msg (hcp0 h0)).1
    · exact (apply_censorship_ok src len msg h128 (hcp1 h0)).1
  have hs1 : s1.message_slots fd.slot = some slot1 := by
    rw [hslots, Function.update_same]
  refine ⟨fd, msg, hfd, hfiles, hmsg, hn, hcp0, hcp1, ⟨slot1, pos, _, hs1, hfind, rfl, rfl⟩, ?_⟩
  intro g gd dst cap hg hgs hgc hcap hdst
  have := device_read_stored s1 g gd slot1 pos _ msg dst cap hg (by rw [hgc]; exact hc)
    (by rw [hgs]; exact hs1) (by rw [hgc]; exact hfind) rfl (by simp [hmsg])
    (by omega) (by omega) (by omega) hdst
  simpa [hmsg] using this

/-- The two control requests have different numbers. -/
theorem set_cen_ne_channel : MSG_SLOT_SET_CEN ≠ MSG_SLOT_CHANNEL := by decide

/-- Opening a minor whose slot exists only adds the new file descriptor context. -/
theorem device_open_existing (s : State) (minor : Nat) (file : Nat) (ks : Bool)
    (slot : message_slot) (hm : minor < MAX_SLOTS) (hs : s.message_slots minor = some slot) :
    device_open s (minor : Int) file ks true =
      (State.mk s.message_slots
          (Function.update s.files file (some (msg_slot_fd.mk 0 0 minor))),
        Ret.val SUCCESS) := by
  have h1 : ¬ ((minor : Int) < 0 ∨ (minor : Int) ≥ ((MAX_SLOTS : Nat) : Int)) := by
    simp only [MAX_SLOTS] at hm ⊢
    omega
  simp [device_open, h1, hs, hm]

/-- Selecting a non-zero channel id that fits in an `unsigned int`. -/
theorem device_ioctl_channel (s : State) (file : Nat) (fd : msg_slot_fd) (id : Nat)
    (hf : s.files file = some fd) (h0 : id ≠ 0) (h32 : id < 4294967296) :
    device_ioctl s file MSG_SLOT_CHANNEL id =
      (State.mk s.message_slots
          (Function.update s.files file
            (some (msg_slot_fd.mk id fd.censorship_enabled fd.slot))),
        Ret.val SUCCESS) := by
  have h1 : uint_of_ulong id = id := Nat.mod_eq_of_lt h32
  simp [device_ioctl, hf, h1, h0]

/-- What `device_ioctl` can change: one field of the context of its own file. -/
theorem device_ioctl_frame (s : State) (file cmd param : Nat) :
    (device_ioctl s file cmd param).1.message_slots = s.message_slots ∧
      (∀ g, g ≠ file → (device_ioctl s file cmd param).1.files g = s.files g) ∧
      (∀ fd, s.files file = some fd →
        ∃ fd1, (device_ioctl s file cmd param).1.files file = some fd1 ∧
          fd1.slot = fd.slot ∧
          (cmd ≠ MSG_SLOT_CHANNEL → fd1.channel_id = fd.channel_id) ∧
          (cmd ≠ MSG_SLOT_SET_CEN → fd1.censorship_enabled = fd.censorship_enabled)) := by
  unfold device_ioctl
  cases hf : s.files file with
  | none => simp
  | some fd =>
    simp only
    by_cases hc : cmd = MSG_SLOT_CHANNEL
    · subst hc
      by_cases hp : uint_of_ulong param = 0
      · simp [hp, hf]
      · refine ⟨by simp [hp], ?_, ?_⟩
        · intro g hg
          simp [hp, Function.update_noteq hg]
        · intro fd0 hfd0
          simp only [Option.some.injEq] at hfd0
          subst hfd0
          simp [hp]
    · by_cases hc2 : cmd = MSG_SLOT_SET_CEN
      · subst hc2
        by_cases hp : uint_of_ulong param ≠ 0 ∧ uint_of_ulong param ≠ 1
        · simp [set_cen_ne_channel, hp, hf]
        · refine ⟨by simp [set_cen_ne_channel, hp], ?_, ?_⟩
          · intro g hg
            simp [set_cen_ne_channel, hp, Function.update_noteq hg]
          · intro fd0 hfd0
            simp only [Option.some.injEq] at hfd0
            subst hfd0
            simp [set_cen_ne_channel, hp]
      · simp [hc, hc2, hf]

/-- Two states with the same table and the same contexts are equal. -/
theorem State.ext_fields (s t : State) (h1 : s.message_slots = t.message_slots)
    (h2 : s.files = t.files) : s = t := by
  cases s
  cases t
  simp only at h1 h2
  rw [h1, h2]

/-- The outcome of a read depends only on the handle and on the channel found for it. -/
theorem device_read_congr (s t : State) (g : Nat) (dst : UserMem) (cap : Nat)
    (hf : t.files g = s.files g)
    (hch : ∀ gd, s.files g = some gd → gd.channel_id ≠ 0 →
      channel_of t gd.slot gd.channel_id = channel_of s gd.slot gd.channel_id) :
    device_read t g dst cap = (device_read s g dst cap).map (fun x => (t, x.2)) := by
  unfold device_read
  rw [hf]
  cases hg : s.files g with
  | none => rfl
  | some gd =>
    simp only
    by_cases hc : gd.channel_id = 0
    · simp [hc]
    · have h := hch gd hg hc
      unfold channel_of at h
      simp only [hc, if_false]
      cases hs : s.message_slots gd.slot with
      | none =>
        rw [hs] at h
        cases ht : t.message_slots gd.slot with
        | none => rfl
        | some slot1 => simp [ht] at h
      | some slot =>
        rw [hs] at h
        cases ht : t.message_slots gd.slot with
        | none => simp [ht] at h
        | some slot1 =>
          rw [ht] at h
          simp only [Option.map_some', Option.some.injEq] at h
          dsimp only
          cases hfs : find_channel slot gd.channel_id with
          | none =>
            rw [hfs] at h
            cases hft : find_channel slot1 gd.channel_id with
            | none => rfl
            | some p => simp [hft] at h
          | some p =>
            rw [hfs] at h
            cases hft : find_channel slot1 gd.channel_id with
            | none => simp [hft] at h
            | some q =>
              rw [hft] at h
              simp only [Option.map_some', Option.some.injEq] at h
              obtain ⟨p1, pch⟩ := p
              obtain ⟨q1, qch⟩ := q
              simp only at h
              subst h
              simp only
              split_ifs
              · rfl
              · rfl
              · cases hd : qch.message_data with
                | none => rfl
                | some data =>
                  simp only
                  split_ifs
                  · rfl
                  · split <;> rfl


/-- A node with another id at the front does not change which node is found. -/
theorem find_channel_in_cons_ne (c : channel) (l : List channel) (id1 : Nat)
    (h : c.channel_id ≠ id1) :
    (find_channel_in (c :: l) id1).map Prod.snd = (find_channel_in l id1).map Prod.snd := by
  simp only [find_channel_in, h, if_false]
  cases find_channel_in l id1 with
  | none => rfl
  | some p => rfl

/-- Every write either leaves the state as it was or replaces the channel list of
the handle's slot, leaving the channels with other ids as they were. -/
theorem device_write_effect (s s1 : State) (file : Nat) (fd : msg_slot_fd)
    (buffer : Option UserMem) (len : Nat) (kc km : Bool) (r : Ret)
    (hfd : s.files file = some fd)
    (h : device_write s file buffer len kc km = some (s1, r)) :
    s1 = s ∨
    ∃ slot chans1, fd.channel_id ≠ 0 ∧ s.message_slots fd.slot = some slot ∧
      s1 = State.mk (Function.update s.message_slots fd.slot
        (some (message_slot.mk slot.minor_number chans1))) s.files ∧
      (∀ id1, id1 ≠ fd.channel_id →
        (find_channel_in chans1 id1).map Prod.snd
          = (find_channel_in slot.channels id1).map Prod.snd) ∧
      ((∃ n, r = Ret.val n) ∨
        ((∃ e, r = Ret.err e) ∧ find_channel_in slot.channels fd.channel_id = none ∧
          chans1 = channel.mk fd.channel_id none 0 :: slot.channels)) := by
  cases r with
  | val n =>
    cases buffer with
    | none =>
      unfold device_write at h
      simp only [hfd] at h
      split_ifs at h <;> simp at h
    | some src =>
      obtain ⟨fd1, slot, slot1, pos, msg, hfd1, hc, _, _, _, hs, _, _, hfiles, hslots, hminor,
        _, hother⟩ := device_write_ok s s1 file src len kc km n h
      have hfdeq : fd = fd1 := by
        rw [hfd] at hfd1
        exact Option.some.inj hfd1
      subst hfdeq
      right
      refine ⟨slot, slot1.channels, hc, hs, ?_, hother, Or.inl ⟨n, rfl⟩⟩
      apply State.ext_fields
      · rw [hslots, ← hminor]
      · exact hfiles
  | err e =>
    unfold device_write at h
    simp only [hfd] at h
    by_cases hc : fd.channel_id = 0
    · left
      simp [hc] at h
      exact h.1.symm
    · by_cases hl : len = 0 ∨ len > MAX_MSG_LEN
      · left
        simp [hc, hl] at h
        exact h.1.symm
      · simp only [hc, hl, if_false] at h
        cases buffer with
        | none =>
          left
          simp at h
          exact h.1.symm
        | some src =>
          simp only at h
          cases hs : s.message_slots fd.slot with
          | none => simp [hs] at h
          | some slot =>
            simp only [hs] at h
            cases hfind : find_channel slot fd.channel_id with
            | some chan =>
              left
              obtain ⟨pos, ch⟩ := chan
              simp only [hfind] at h
              cases km with
              | false =>
                simp at h
                exact h.1.symm
              | true =>
                simp only [if_true] at h
                split at h
                · simp at h
                  exact h.1.symm
                · simp at h
            | none =>
              simp only [hfind] at h
              cases kc with
              | false =>
                left
                simp [create_channel] at h
                rw [← h.1]
                apply State.ext_fields
                · simp only
                  rw [← hs, Function.update_eq_self]
                · rfl
              | true =>
                right
                simp only [create_channel, if_true] at h
                refine ⟨slot, channel.mk fd.channel_id none 0 :: slot.channels, hc, rfl, ?_, ?_,
                  Or.inr ⟨⟨e, rfl⟩, hfind, rfl⟩⟩
                · cases km with
                  | false =>
                    simp at h
                    exact h.1.symm
                  | true =>
                    simp only [if_true] at h
                    split at h
                    · simp at h
                      exact h.1.symm
                    · simp at h
                · intro id1 hne
                  exact find_channel_in_cons_ne _ _ _ (fun e => hne e.symm)

/-- A fault on one of the source bytes makes `copy_from_user` fail. -/
theorem copy_from_user_fault (src : UserMem) (n off : Nat)
    (h : ∃ i, i < n ∧ src (off + i) = none) : copy_from_user src off n = none := by
  cases hc : copy_from_user src off n with
  | none => rfl
  | some bytes =>
    obtain ⟨i, hi, hnone⟩ := h
    obtain ⟨hl, hb⟩ := copy_from_user_some src n off bytes hc
    have := hb i hi
    rw [hnone, List.getElem?_eq_getElem (by omega)] at this
    simp at this

/-- A fault on one of the source bytes makes `apply_censorship` return `-EFAULT`. -/
theorem apply_censorship_fault (src : UserMem) (len : Nat) (hlen : len ≤ 128)
    (h : ∃ i, i < len ∧ src i = none) :
    apply_censorship src (int_of_nat len) = Except.error Errno.EFAULT := by
  cases hc : apply_censorship src (int_of_nat len) with
  | error e =>
    unfold apply_censorship at hc
    rw [apply_censorship_loop_error _ _ _ _ _ hc]
  | ok msg =>
    obtain ⟨i, hi, hnone⟩ := h
    obtain ⟨b, hb, _⟩ := (apply_censorship_ok src len msg hlen hc).2 i hi
    rw [hnone] at hb
    simp at hb

/-- Outcome of a write that passes its checks and then hits a failing allocation or
a faulting source. -/
theorem device_write_fail (s : State) (file : Nat) (fd : msg_slot_fd) (slot : message_slot)
    (src : UserMem) (len : Nat) (kc km : Bool)
    (hfd : s.files file = some fd) (hc : fd.channel_id ≠ 0)
    (hlen : 1 ≤ len ∧ len ≤ MAX_MSG_LEN)
    (hs : s.message_slots fd.slot = some slot)
    (hfail : km = false ∨ ∃ i, i < len ∧ src i = none) :
    ∃ s1 e, device_write s file (some src) len kc km = some (s1, Ret.err e) ∧
      (km = false → e = Errno.ENOMEM) ∧
      (km = true → find_channel slot fd.channel_id ≠ none ∨ kc = true → e = Errno.EFAULT) ∧
      (km = true → find_channel slot fd.channel_id = none → kc = false → e = Errno.ENOMEM) ∧
      (find_channel slot fd.channel_id ≠ none → s1 = s) ∧
      (find_channel slot fd.channel_id = none → kc = false → s1 = s) ∧
      (find_channel slot fd.channel_id = none → kc = true →
        s1 = State.mk (Function.update s.message_slots fd.slot
          (some (message_slot.mk slot.minor_number
            (channel.mk fd.channel_id none 0 :: slot.channels)))) s.files) := by
  have hl : ¬ (len = 0 ∨ len > MAX_MSG_LEN) := by omega
  have hl128 : len ≤ 128 := hlen.2
  unfold device_write
  simp only [hfd, hc, hl, if_false, hs]
  cases hfind : find_channel slot fd.channel_id with
  | some chan =>
    obtain ⟨pos, ch⟩ := chan
    cases km with
    | false => exact ⟨s, Errno.ENOMEM, by simp⟩
    | true =>
      have hf : ∃ i, i < len ∧ src i = none := by
        rcases hfail with h | h
        · simp at h
        · exact h
      refine ⟨s, Errno.EFAULT, ?_, by simp⟩
      simp only [if_true]
      by_cases hcen : fd.censorship_enabled ≠ 0
      · rw [if_pos hcen, apply_censorship_fault src len hl128 hf]
      · rw [if_neg hcen, copy_from_user_fault src len 0 (by simpa using hf)]
  | none =>
    cases kc with
    | false =>
      refine ⟨s, Errno.ENOMEM, ?_, by simp⟩
      simp only [create_channel]
      have : (State.mk (Function.update s.message_slots fd.slot (some slot)) s.files) = s := by
        apply State.ext_fields
        · simp only
          rw [← hs, Function.update_eq_self]
        · rfl
      simp [this]
    | true =>
      cases km with
      | false =>
        exact ⟨State.mk (Function.update s.message_slots fd.slot
          (some (message_slot.mk slot.minor_number
            (channel.mk fd.channel_id none 0 :: slot.channels)))) s.files,
          Errno.ENOMEM, by simp [create_channel], by simp⟩
      | true =>
        have hf : ∃ i, i < len ∧ src i = none := by
          rcases hfail with h | h
          · simp at h
          · exact h
        refine ⟨State.mk (Function.update s.message_slots fd.slot
          (some (message_slot.mk slot.minor_number
            (channel.mk fd.channel_id none 0 :: slot.channels)))) s.files,
          Errno.EFAULT, ?_, by simp⟩
        simp only [create_channel, if_true]
        by_cases hcen : fd.censorship_enabled ≠ 0
        · rw [if_pos hcen, apply_censorship_fault src len hl128 hf]
        · rw [if_neg hcen, copy_from_user_fault src len 0 (by simpa using hf)]

/-- A write leaves all file contexts and every channel other than the addressed one
unchanged, and reads of those return what they returned before. -/
theorem device_write_frame (s s1 : State) (file : Nat) (fd : msg_slot_fd)
    (buffer : Option UserMem) (len : Nat) (kc km : Bool) (r : Ret)
    (hfd : s.files file = some fd)
    (hw : device_write s file buffer len kc km = some (s1, r)) :
    s1.files = s.files ∧
    (∀ m id, m ≠ fd.slot ∨ id ≠ fd.channel_id → channel_of s1 m id = channel_of s m id) ∧
    (∀ (g : Nat) (gd : msg_slot_fd) (dst : UserMem) (cap : Nat),
      s.files g = some gd → gd.slot ≠ fd.slot ∨ gd.channel_id ≠ fd.channel_id →
      (device_read s1 g dst cap).map Prod.snd = (device_read s g dst cap).map Prod.snd) := by
  have hchan : s1.files = s.files ∧
      ∀ m id, m ≠ fd.slot ∨ id ≠ fd.channel_id → channel_of s1 m id = channel_of s m id := by
    rcases device_write_effect s s1 file fd buffer len kc km r hfd hw with h | h
    · subst h
      exact ⟨rfl, fun _ _ _ => rfl⟩
    · obtain ⟨slot, chans1, _, hs, hs1, hother, _⟩ := h
      subst hs1
      refine ⟨rfl, ?_⟩
      intro m id hne
      unfold channel_of
      by_cases hm : m = fd.slot
      · subst hm
        have hid : id ≠ fd.channel_id := by
          rcases hne with h | h
          · exact absurd rfl h
          · exact h
        simp only [Function.update_same, hs, Option.map_some', find_channel]
        rw [hother id hid]
      · simp only [Function.update_noteq hm]
  refine ⟨hchan.1, hchan.2, ?_⟩
  intro g gd dst cap hg hne
  have hcongr := device_read_congr s s1 g dst cap (by rw [hchan.1]) (fun gd1 hg1 _ => by
    rw [hg] at hg1
    have e : gd = gd1 := Option.some.inj hg1
    subst e
    exact hchan.2 gd.slot gd.channel_id hne)
  rw [hcongr, Option.map_map]
  rfl

/-- Copying from readable memory succeeds. -/
theorem copy_from_user_total (src : UserMem) (n off : Nat)
    (h : ∀ i, i < n → (src (off + i)).isSome) :
    ∃ bytes, copy_from_user src off n = some bytes := by
  induction n generalizing off with
  | zero => exact ⟨[], rfl⟩
  | succ n ih =>
    obtain ⟨b, hb⟩ := Option.isSome_iff_exists.mp (h 0 (by omega))
    simp only [Nat.add_zero] at hb
    have hrest : ∀ i, i < n → (src (off + 1 + i)).isSome := by
      intro i hi
      have := h (i + 1) (by omega)
      have e : off + (i + 1) = off + 1 + i := by omega
      rwa [e] at this
    obtain ⟨rest, hr⟩ := ih (off + 1) hrest
    exact ⟨b :: rest, by simp only [copy_from_user, hb, hr]⟩

/-- A write that passes the checks, reads its whole source and gets its
allocations returns the requested length. -/
theorem device_write_succeeds (s : State) (file : Nat) (fd : msg_slot_fd) (slot : message_slot)
    (src : UserMem) (len : Nat)
    (hfd : s.files file = some fd) (hc : fd.channel_id ≠ 0)
    (hlen : 1 ≤ len ∧ len ≤ MAX_MSG_LEN)
    (hs : s.message_slots fd.slot = some slot)
    (hsrc : ∀ i, i < len → (src i).isSome) :
    ∃ s1, device_write s file (some src) len true true = some (s1, Ret.val (len : Int)) := by
  have hl : ¬ (len = 0 ∨ len > MAX_MSG_LEN) := by omega
  have hl128 : len ≤ 128 := hlen.2
  have hcopied : ∃ msg, (if fd.censorship_enabled ≠ 0 then
      apply_censorship src (int_of_nat len)
      else
        match copy_from_user src 0 len with
        | none => Except.error Errno.EFAULT
        | some bytes => Except.ok bytes) = Except.ok msg := by
    by_cases hcen : fd.censorship_enabled ≠ 0
    · rw [if_pos hcen]
      unfold apply_censorship
      rw [int_of_nat_small len hl128, Int.toNat_ofNat]
      exact apply_censorship_loop_total src len 0 [] (fun k hk => by simpa using hsrc k hk)
    · rw [if_neg hcen]
      obtain ⟨bytes, hb⟩ := copy_from_user_total src len 0 (fun i hi => by simpa using hsrc i hi)
      exact ⟨bytes, by rw [hb]⟩
  obtain ⟨msg, hmsg⟩ := hcopied
  unfold device_write
  simp only [hfd, hc, hl, if_false, hs]
  cases hfind : find_channel slot fd.channel_id with
  | some chan =>
    obtain ⟨pos, ch⟩ := chan
    simp only [if_true]
    split
    · rename_i e he
      have hcontra : (Except.ok msg : Except Errno (List Byte)) = Except.error e :=
        hmsg.symm.trans he
      simp at hcontra
    · exact ⟨_, rfl⟩
  | none =>
    simp only [create_channel, if_true]
    split
    · rename_i e he
      have hcontra : (Except.ok msg : Except Errno (List Byte)) = Except.error e :=
        hmsg.symm.trans he
      simp at hcontra
    · exact ⟨_, rfl⟩

/-! ## Claims -/

/-- C1 (write/read round trip). Take a handle bound to an existing slot, with a
non-zero channel selected and censorship disabled, and a payload of 1..128 bytes
held in the source buffer. Then the write succeeds when its allocations do, and
every successful write of the payload (return value `n`) returns the payload
length and is followed, on the same handle and for every writable destination of
capacity at least the payload length, by a read that returns the payload length,
delivers exactly the payload and leaves the rest of the destination untouched.
The slot index of the handle is arbitrary, which covers every identity in
[0,256). -/
theorem write_read_roundtrip (s : State) (file : Nat) (fd : msg_slot_fd) (slot : message_slot)
    (src dst : UserMem) (payload : List Byte) (cap : Nat)
    (hfd : s.files file = some fd) (hslot : s.message_slots fd.slot = some slot)
    (hchan : fd.channel_id ≠ 0) (hcen : fd.censorship_enabled = 0)
    (hlen : 1 ≤ payload.length ∧ payload.length ≤ MAX_MSG_LEN)
    (hsrc : ∀ i, i < payload.length → src i = payload[i]?)
    (hcap : payload.length ≤ cap) (hdst : ∀ i, i < cap → (dst i).isSome) :
    (∃ s1, device_write s file (some src) payload.length true true
        = some (s1, Ret.val (payload.length : Int))) ∧
    ∀ (kc km : Bool) (s1 : State) (n : Int),
      device_write s file (some src) payload.length kc km = some (s1, Ret.val n) →
      n = (payload.length : Int) ∧
      ∃ dst1, device_read s1 file dst cap = some (s1, Ret.val (payload.length : Int), dst1) ∧
        (∀ i, i < payload.length → dst1 i = payload[i]?) ∧
        (∀ j, payload.length ≤ j → dst1 j = dst j) := by
  refine ⟨device_write_succeeds s file fd slot src payload.length hfd hchan hlen hslot
    (fun i hi => by rw [hsrc i hi, List.getElem?_eq_getElem hi]; rfl), ?_⟩
  intro kc km s1 n hw
  obtain ⟨fd1, msg, hfd1, hfiles, _, hn, hcp0, _, _, hread⟩ :=
    device_read_after_write s s1 file src payload.length kc km n hw
  have hfdeq : fd = fd1 := by
    rw [hfd] at hfd1
    exact Option.some.inj hfd1
  subst hfdeq
  have hmsg : payload = msg := by
    have h1 := hcp0 hcen
    rw [copy_from_user_of_agree src payload 0 (fun i hi => by simpa using hsrc i hi)] at h1
    exact Option.some.inj h1
  subst hmsg
  exact ⟨hn, hread file fd dst cap (by rw [hfiles]; exact hfd) rfl rfl hcap hdst⟩

theorem write_read_roundtrip_witness :
    ∃ s1 dst1,
      device_write ex_state 0 (some (user_mem_of ex_hello)) 5 true true = some (s1, Ret.val 5) ∧
      device_read s1 0 (user_buf 8) 8 = some (s1, Ret.val 5, dst1) ∧
      ∀ i, i < 5 → dst1 i = ex_hello[i]? := by
  obtain ⟨⟨s1, hw⟩, h⟩ := write_read_roundtrip ex_state 0 ex_fd (message_slot.mk 3 [])
    (user_mem_of ex_hello) (user_buf 8) ex_hello 8 rfl rfl (by decide) rfl
    ⟨by decide, by decide⟩ (fun _ _ => rfl) (by decide) (fun i hi => by simp [user_buf, hi])
  obtain ⟨_, dst1, hr, hb, _⟩ := h true true s1 5 hw
  exact ⟨s1, dst1, hw, hr, hb⟩

/-- C2, as stated, fails: a one-byte payload consisting of the character `#`
written with censorship enabled is stored and read back as `#` at position 0,
although `(0 + 1) mod 3` is not 0; so the byte at a position equals `#` without
the position being a third one. -/
theorem censorship_iff_counterexample :
    ∃ s1 dst1,
      device_write ex_state_cen 0 (some (user_mem_of [hashChar])) 1 true true
        = some (s1, Ret.val 1) ∧
      device_read s1 0 (user_buf 1) 1 = some (s1, Ret.val 1, dst1) ∧
      ¬ (dst1 0 = some hashChar ↔ (0 + 1) % 3 = 0) := by
  refine ⟨_, _, rfl, rfl, ?_⟩
  decide

/-- C2 (amended): for every payload of 1..128 bytes held in the source buffer
and every handle bound to an existing slot with a channel selected and
censorship enabled, the write succeeds when its allocations do, and after every
successful write the stored message and what a read delivers have the length of
the payload, the byte at each 0-indexed position `i` being `#` when
`(i + 1) mod 3 = 0` and the original byte otherwise. -/
theorem censorship_transform (s : State) (file : Nat) (fd : msg_slot_fd) (slot : message_slot)
    (src dst : UserMem) (payload : List Byte) (cap : Nat)
    (hfd : s.files file = some fd) (hslot : s.message_slots fd.slot = some slot)
    (hchan : fd.channel_id ≠ 0) (hcen : fd.censorship_enabled ≠ 0)
    (hlen : 1 ≤ payload.length ∧ payload.length ≤ MAX_MSG_LEN)
    (hsrc : ∀ i, i < payload.length → src i = payload[i]?)
    (hcap : payload.length ≤ cap) (hdst : ∀ i, i < cap → (dst i).isSome) :
    (∃ s1, device_write s file (some src) payload.length true true
        = some (s1, Ret.val (payload.length : Int))) ∧
    ∀ (kc km : Bool) (s1 : State) (n : Int),
      device_write s file (some src) payload.length kc km = some (s1, Ret.val n) →
      ∃ slot1 pos ch msg dst1,
        s1.message_slots fd.slot = some slot1 ∧
        find_channel slot1 fd.channel_id = some (pos, ch) ∧
        ch.message_data = some msg ∧ ch.message_length = (payload.length : Int) ∧
        msg.length = payload.length ∧
        device_read s1 file dst cap = some (s1, Ret.val (payload.length : Int), dst1) ∧
        ∀ (i : Nat) (hi : i < payload.length),
          msg[i]? = some (if (i + 1) % 3 = 0 then hashChar else payload[i]) ∧
          dst1 i = some (if (i + 1) % 3 = 0 then hashChar else payload[i]) := by
  refine ⟨device_write_succeeds s file fd slot src payload.length hfd hchan hlen hslot
    (fun i hi => by rw [hsrc i hi, List.getElem?_eq_getElem hi]; rfl), ?_⟩
  intro kc km s1 n hw
  obtain ⟨fd1, msg, hfd1, hfiles, hmlen, _, _, hcp1, ⟨slot1, pos, ch, hs1, hfind, hdata, hml⟩,
    hread⟩ := device_read_after_write s s1 file src payload.length kc km n hw
  have hfdeq : fd = fd1 := by
    rw [hfd] at hfd1
    exact Option.some.inj hfd1
  subst hfdeq
  obtain ⟨dst1, hr, hin, _⟩ :=
    hread file fd dst cap (by rw [hfiles]; exact hfd) rfl rfl hcap hdst
  have hmsg := (apply_censorship_ok src payload.length msg hlen.2 (hcp1 hcen)).2
  have hbyte : ∀ (i : Nat) (hi : i < payload.length),
      msg[i]? = some (if (i + 1) % 3 = 0 then hashChar else payload[i]) := by
    intro i hi
    obtain ⟨b, hb, hm⟩ := hmsg i hi
    have hpb : payload[i] = b := by
      have := hsrc i hi
      rw [hb, List.getElem?_eq_getElem hi] at this
      exact (Option.some.inj this).symm
    rw [hm, hpb]
  refine ⟨slot1, pos, ch, msg, dst1, hs1, hfind, hdata, hml, hmlen, hr, ?_⟩
  intro i hi
  exact ⟨hbyte i hi, by rw [hin i hi, hbyte i hi]⟩

theorem censorship_transform_witness :
    ∃ s1 dst1,
      device_write ex_state_cen 0 (some (user_mem_of ex_hello)) 5 true true
        = some (s1, Ret.val 5) ∧
      device_read s1 0 (user_buf 8) 8 = some (s1, Ret.val 5, dst1) ∧
      dst1 2 = some hashChar ∧ dst1 3 = some 108 := by
  obtain ⟨⟨s1, hw⟩, h⟩ :=
    censorship_transform ex_state_cen 0 (msg_slot_fd.mk 7 1 3) (message_slot.mk 3 [])
      (user_mem_of ex_hello) (user_buf 8) ex_hello 8 rfl rfl (by decide) (by decide)
      ⟨by decide, by decide⟩ (fun _ _ => rfl) (by decide)
      (fun i hi => by simp [user_buf, hi])
  obtain ⟨_, _, _, _, dst1, _, _, _, _, _, hr, hb⟩ := h true true s1 5 hw
  exact ⟨s1, dst1, hw, hr, (hb 2 (by decide)).2, (hb 3 (by decide)).2⟩

/-- C3 (last write wins). After a successful write of `A` and then a successful
write of `B` (censorship disabled; the writes succeed, so both lengths are in
1..128) to the same channel of the same slot, through handles `f1` and `f2`:
the channel held `A` in between, and
after the second write it stores exactly `B` with recorded length `|B|`; a read
through any handle `g` on that channel with capacity at least `|B|` returns
`|B|`, delivers exactly the bytes of `B` and writes nothing beyond them, also
when `B` is shorter than `A`. -/
theorem last_write_wins (s s1 s2 : State) (f1 f2 g : Nat) (fd1 fd2 gd : msg_slot_fd)
    (srcA srcB dst : UserMem) (A B : List Byte) (kc1 km1 kc2 km2 : Bool) (n1 n2 : Int)
    (cap : Nat)
    (hf1 : s.files f1 = some fd1) (hf2 : s1.files f2 = some fd2) (hg : s2.files g = some gd)
    (hsame2 : fd2.slot = fd1.slot ∧ fd2.channel_id = fd1.channel_id)
    (hsameg : gd.slot = fd1.slot ∧ gd.channel_id = fd1.channel_id)
    (hcen1 : fd1.censorship_enabled = 0) (hcen2 : fd2.censorship_enabled = 0)
    (hsrcA : ∀ i, i < A.length → srcA i = A[i]?)
    (hsrcB : ∀ i, i < B.length → srcB i = B[i]?)
    (hwA : device_write s f1 (some srcA) A.length kc1 km1 = some (s1, Ret.val n1))
    (hwB : device_write s1 f2 (some srcB) B.length kc2 km2 = some (s2, Ret.val n2))
    (hcap : B.length ≤ cap) (hdst : ∀ i, i < cap → (dst i).isSome) :
    (∃ slot1 pos ch, s1.message_slots fd1.slot = some slot1 ∧
        find_channel slot1 fd1.channel_id = some (pos, ch) ∧
        ch.message_data = some A ∧ ch.message_length = (A.length : Int)) ∧
      (∃ slot2 pos ch, s2.message_slots fd1.slot = some slot2 ∧
        find_channel slot2 fd1.channel_id = some (pos, ch) ∧
        ch.message_data = some B ∧ ch.message_length = (B.length : Int)) ∧
      ∃ dst1, device_read s2 g dst cap = some (s2, Ret.val (B.length : Int), dst1) ∧
        (∀ i, i < B.length → dst1 i = B[i]?) ∧
        (∀ j, B.length ≤ j → dst1 j = dst j) := by
  have hA : ∃ slot1 pos ch, s1.message_slots fd1.slot = some slot1 ∧
      find_channel slot1 fd1.channel_id = some (pos, ch) ∧
      ch.message_data = some A ∧ ch.message_length = (A.length : Int) := by
    obtain ⟨fd, msg, hfd, _, _, _, hcp0, _, ⟨slot1, pos, ch, hs1, hfind, hdata, hml⟩, _⟩ :=
      device_read_after_write s s1 f1 srcA A.length kc1 km1 n1 hwA
    have hfdeq : fd1 = fd := by
      rw [hf1] at hfd
      exact Option.some.inj hfd
    subst hfdeq
    have hmsg : A = msg := by
      have h1 := hcp0 hcen1
      rw [copy_from_user_of_agree srcA A 0 (fun i hi => by simpa using hsrcA i hi)] at h1
      exact Option.some.inj h1
    subst hmsg
    exact ⟨slot1, pos, ch, hs1, hfind, hdata, hml⟩
  obtain ⟨fd, msg, hfd, _, _, _, hcp0, _, ⟨slot2, pos, ch, hs2, hfind, hdata, hml⟩, hread⟩ :=
    device_read_after_write s1 s2 f2 srcB B.length kc2 km2 n2 hwB
  have hfdeq : fd2 = fd := by
    rw [hf2] at hfd
    exact Option.some.inj hfd
  subst hfdeq
  have hmsg : B = msg := by
    have h1 := hcp0 hcen2
    rw [copy_from_user_of_agree srcB B 0 (fun i hi => by simpa using hsrcB i hi)] at h1
    exact Option.some.inj h1
  subst hmsg
  rw [hsame2.1] at hs2
  rw [hsame2.2] at hfind
  refine ⟨hA, ⟨slot2, pos, ch, hs2, hfind, hdata, hml⟩, ?_⟩
  exact hread g gd dst cap hg (by rw [hsameg.1, hsame2.1]) (by rw [hsameg.2, hsame2.2])
    hcap hdst

theorem last_write_wins_witness :
    ∃ s1 s2 dst1,
      device_write ex_state 0 (some (user_mem_of ex_hello)) 5 true true = some (s1, Ret.val 5) ∧
      device_write s1 0 (some (user_mem_of [104, 105])) 2 true true = some (s2, Ret.val 2) ∧
      device_read s2 0 (user_buf 8) 8 = some (s2, Ret.val 2, dst1) ∧
      prefix_of dst1 8 = [some 104, some 105, some 0, some 0, some 0, some 0, some 0, some 0] := by
  obtain ⟨_, _, dst1, hr, hin, hout⟩ :=
    last_write_wins ex_state _ _ 0 0 0 ex_fd ex_fd ex_fd (user_mem_of ex_hello)
      (user_mem_of [104, 105]) (user_buf 8) ex_hello [104, 105] true true true true 5 2 8
      rfl rfl rfl ⟨rfl, rfl⟩ ⟨rfl, rfl⟩ rfl rfl
      (fun _ _ => rfl) (fun _ _ => rfl) rfl rfl (by decide)
      (fun i hi => by simp [user_buf, hi])
  refine ⟨_, _, dst1, rfl, rfl, hr, ?_⟩
  simp only [prefix_of, List.range, List.range.loop, List.map]
  rw [hin 0 (by decide), hin 1 (by decide), hout 2 (by decide), hout 3 (by decide),
    hout 4 (by decide), hout 5 (by decide), hout 6 (by decide), hout 7 (by decide)]
  rfl

/-- C4 (messages are shared across handles and survive close). After a
successful write of `len` bytes through handle `h1` to channel `c` of a slot the
channel stores a message `msg` of that length, and (a) a read with sufficient
capacity through any handle `g` of the resulting state that is bound to the
same slot and has selected `c` delivers exactly `msg`, whatever the censorship
flag of `g`; (b) the same holds for a handle `h2` opened on that slot after `h1`
has been released, once it has selected `c`, whatever value it passes to the
censorship control. -/
theorem shared_across_handles (s s1 : State) (h1 : Nat) (fd : msg_slot_fd) (src : UserMem)
    (len : Nat) (kc km : Bool) (n : Int)
    (hfd : s.files h1 = some fd) (hslot : fd.slot < MAX_SLOTS)
    (hid : fd.channel_id < 4294967296)
    (hw : device_write s h1 (some src) len kc km = some (s1, Ret.val n)) :
    ∃ slot1 pos ch msg,
      s1.message_slots fd.slot = some slot1 ∧
      find_channel slot1 fd.channel_id = some (pos, ch) ∧
      ch.message_data = some msg ∧ msg.length = len ∧
      (∀ (g : Nat) (gd : msg_slot_fd) (dst : UserMem) (cap : Nat),
        s1.files g = some gd → gd.slot = fd.slot → gd.channel_id = fd.channel_id →
        len ≤ cap → (∀ i, i < cap → (dst i).isSome) →
        ∃ dst1, device_read s1 g dst cap = some (s1, Ret.val (len : Int), dst1) ∧
          ∀ i, i < len → dst1 i = msg[i]?) ∧
      (∀ (h2 : Nat) (ks : Bool) (flag : Nat) (dst : UserMem) (cap : Nat),
        len ≤ cap → (∀ i, i < cap → (dst i).isSome) →
        ∃ t dst1,
          t = (device_ioctl (device_ioctl
                (device_open (device_release s1 h1).1 (fd.slot : Int) h2 ks true).1
                h2 MSG_SLOT_CHANNEL fd.channel_id).1 h2 MSG_SLOT_SET_CEN flag).1 ∧
          device_read t h2 dst cap = some (t, Ret.val (len : Int), dst1) ∧
          ∀ i, i < len → dst1 i = msg[i]?) := by
  obtain ⟨fd0, msg, hfd0, _, hmlen, _, _, _, ⟨slot1, pos, ch, hs1, hfind, hdata, hml⟩, hread⟩ :=
    device_read_after_write s s1 h1 src len kc km n hw
  obtain ⟨fd9, _, _, _, _, hfd9, hc9, hl1, hl128, _⟩ := device_write_ok s s1 h1 src len kc km n hw
  have hfdeq : fd = fd0 := by
    rw [hfd] at hfd0
    exact Option.some.inj hfd0
  have hfdeq9 : fd = fd9 := by
    rw [hfd] at hfd9
    exact Option.some.inj hfd9
  subst hfdeq
  subst hfdeq9
  refine ⟨slot1, pos, ch, msg, hs1, hfind, hdata, hmlen, ?_, ?_⟩
  · intro g gd dst cap hg hgs hgc hcap hdst
    obtain ⟨dst1, hr, hin, _⟩ := hread g gd dst cap hg hgs hgc hcap hdst
    exact ⟨dst1, hr, hin⟩
  · intro h2 ks flag dst cap hcap hdst
    have hopen := device_open_existing (device_release s1 h1).1 fd.slot h2 ks slot1 hslot hs1
    have hsel := device_ioctl_channel (device_open (device_release s1 h1).1 (fd.slot : Int) h2 ks true).1
      h2 (msg_slot_fd.mk 0 0 fd.slot) fd.channel_id (by rw [hopen]; simp) hc9 hid
    obtain ⟨hfs, _, hff⟩ := device_ioctl_frame
      (device_ioctl (device_open (device_release s1 h1).1 (fd.slot : Int) h2 ks true).1
        h2 MSG_SLOT_CHANNEL fd.channel_id).1 h2 MSG_SLOT_SET_CEN flag
    obtain ⟨fdx, hfx, hxs, hxc, _⟩ := hff (msg_slot_fd.mk fd.channel_id 0 fd.slot)
      (by rw [hsel]; simp)
    have hxc1 := hxc set_cen_ne_channel
    simp only at hxs hxc1
    have hslots : (device_ioctl (device_ioctl
        (device_open (device_release s1 h1).1 (fd.slot : Int) h2 ks true).1
        h2 MSG_SLOT_CHANNEL fd.channel_id).1 h2 MSG_SLOT_SET_CEN flag).1.message_slots
        = s1.message_slots := by
      rw [hfs, hsel, hopen]
      rfl
    obtain ⟨dst1, hr, hin, _⟩ := device_read_stored _ h2 fdx slot1 pos ch msg dst cap hfx
      (by rw [hxc1]; exact hc9) (by rw [hslots, hxs]; exact hs1) (by rw [hxc1]; exact hfind)
      hdata (by rw [hml, hmlen]) (by omega) (by omega) (by omega) hdst
    rw [hmlen] at hr hin
    exact ⟨_, dst1, rfl, hr, hin⟩

theorem shared_across_handles_witness :
    ∃ s1 t dst1,
      device_write ex_state 0 (some (user_mem_of ex_hello)) 5 true true = some (s1, Ret.val 5) ∧
      t = (device_ioctl (device_ioctl (device_open (device_release s1 0).1 3 1 true true).1
            1 MSG_SLOT_CHANNEL 7).1 1 MSG_SLOT_SET_CEN 1).1 ∧
      device_read t 1 (user_buf 8) 8 = some (t, Ret.val 5, dst1) ∧
      prefix_of dst1 5 = [some 104, some 101, some 108, some 108, some 111] := by
  obtain ⟨slot1, pos, ch, msg, hs1, hfind, hdata, _, _, hB⟩ :=
    shared_across_handles ex_state _ 0 ex_fd (user_mem_of ex_hello) 5 true true 5 rfl
      (by decide) (by decide) rfl
  obtain ⟨t, dst1, ht, hr, hin⟩ := hB 1 true 1 (user_buf 8) 8 (by decide)
    (fun i hi => by simp [user_buf, hi])
  have e1 : message_slot.mk 3 [channel.mk 7 (some ex_hello) 5] = slot1 := Option.some.inj hs1
  subst e1
  have e2 : ((0 : Nat), channel.mk 7 (some ex_hello) 5) = (pos, ch) := Option.some.inj hfind
  have e3 : channel.mk 7 (some ex_hello) 5 = ch := congrArg Prod.snd e2
  subst e3
  have e4 : ex_hello = msg := Option.some.inj hdata
  subst e4
  refine ⟨_, t, dst1, rfl, ht, hr, ?_⟩
  simp only [prefix_of, List.range, List.range.loop, List.map]
  rw [hin 0 (by decide), hin 1 (by decide), hin 2 (by decide), hin 3 (by decide),
    hin 4 (by decide)]
  rfl

/-- C5 (a write affects only the addressed channel). For every write, whatever
its outcome, through a handle bound to slot `fd.slot` with selected channel
`fd.channel_id`: no file descriptor context changes; for every slot index `m`
and channel id `id` other than the addressed pair, the channel found for `id`
in slot `m` (its id, payload and recorded length, or its absence) is the same
after the write as before; and a read through any handle addressing such a pair
returns the same value and delivers the same bytes as before the write. -/
theorem write_frame (s s1 : State) (file : Nat) (fd : msg_slot_fd)
    (buffer : Option UserMem) (len : Nat) (kc km : Bool) (r : Ret)
    (hfd : s.files file = some fd)
    (hw : device_write s file buffer len kc km = some (s1, r)) :
    s1.files = s.files ∧
    (∀ m id, m ≠ fd.slot ∨ id ≠ fd.channel_id → channel_of s1 m id = channel_of s m id) ∧
    (∀ (g : Nat) (gd : msg_slot_fd) (dst : UserMem) (cap : Nat),
      s.files g = some gd → gd.slot ≠ fd.slot ∨ gd.channel_id ≠ fd.channel_id →
      (device_read s1 g dst cap).map Prod.snd = (device_read s g dst cap).map Prod.snd) :=
  device_write_frame s s1 file fd buffer len kc km r hfd hw

theorem write_frame_witness :
    ∃ s1, device_write ex_two 1 (some (user_mem_of [104, 105])) 2 true true
        = some (s1, Ret.val 2) ∧
      channel_of s1 3 7 = some (some (channel.mk 7 (some ex_hello) 5)) ∧
      channel_of s1 3 8 = some (some (channel.mk 8 (some [104, 105]) 2)) ∧
      (device_read s1 0 (user_buf 8) 8).map Prod.snd
        = (device_read ex_two 0 (user_buf 8) 8).map Prod.snd := by
  have h := write_frame ex_two _ 1 (msg_slot_fd.mk 8 0 3) (some (user_mem_of [104, 105])) 2
    true true (Ret.val 2) rfl rfl
  exact ⟨_, rfl, by decide, by decide,
    h.2.2 0 ex_fd (user_buf 8) 8 rfl (Or.inr (by decide))⟩

/-- C6 (write size limit). On a handle with a selected channel, a write of
length 0 or of length greater than 128 returns `-EMSGSIZE` and the state after
the call is the state before it, so every channel keeps its payload and every
read behaves as before. -/
theorem write_size_limit (s : State) (file : Nat) (fd : msg_slot_fd)
    (buffer : Option UserMem) (len : Nat) (kc km : Bool)
    (hfd : s.files file = some fd) (hchan : fd.channel_id ≠ 0)
    (hlen : len = 0 ∨ len > MAX_MSG_LEN) :
    device_write s file buffer len kc km = some (s, Ret.err Errno.EMSGSIZE) := by
  simp [device_write, hfd, hchan, hlen]

theorem write_size_limit_witness :
    device_write ex_two 0 (some (user_mem_of (List.replicate 129 0))) 129 true true
        = some (ex_two, Ret.err Errno.EMSGSIZE) ∧
      device_write ex_two 0 (some (user_mem_of [])) 0 true true
        = some (ex_two, Ret.err Errno.EMSGSIZE) :=
  ⟨write_size_limit ex_two 0 ex_fd _ 129 true true rfl (by decide) (Or.inr (by decide)),
    write_size_limit ex_two 0 ex_fd _ 0 true true rfl (by decide) (Or.inl rfl)⟩

/-- C7, as stated, fails: on a slot without channel 7, a write to channel 7 whose
source buffer faults returns `-EFAULT` but leaves a new, empty channel 7 in the
slot; a read of channel 7 returned `-EINVAL` before the failed write and returns
`-EWOULDBLOCK` after it. -/
theorem failed_write_counterexample :
    ∃ s1, device_write ex_state 0 (some (user_mem_of [])) 5 true true
        = some (s1, Ret.err Errno.EFAULT) ∧
      channel_of ex_state 3 7 = some none ∧
      channel_of s1 3 7 = some (some (channel.mk 7 none 0)) ∧
      (device_read ex_state 0 (user_buf 8) 8).map (fun x => x.2.1)
        = some (Ret.err Errno.EINVAL) ∧
      (device_read s1 0 (user_buf 8) 8).map (fun x => x.2.1)
        = some (Ret.err Errno.EWOULDBLOCK) :=
  ⟨_, rfl, by decide, by decide, by decide, by decide⟩

/-- C7 (amended): a write that passes the channel-selected and length checks
but then fails, because the copy from the source buffer faults or because the
message buffer cannot be allocated, returns an error (`-ENOMEM` or `-EFAULT`)
and changes no stored payload. No file descriptor context changes; every channel
that existed before the call is found afterwards with the same id, payload and
recorded length; if the addressed channel existed before the call the state is
exactly the state before it; if it did not exist, the only possible change is an
empty channel (no payload, length 0) with the addressed id in the handle's slot.
Every read addressed to another channel or slot, or to the addressed channel
when it existed before, has the same outcome as before the failed write. -/
theorem failed_write_effect (s : State) (file : Nat) (fd : msg_slot_fd) (slot : message_slot)
    (src : UserMem) (len : Nat) (kc km : Bool)
    (hfd : s.files file = some fd) (hchan : fd.channel_id ≠ 0)
    (hlen : 1 ≤ len ∧ len ≤ MAX_MSG_LEN)
    (hs : s.message_slots fd.slot = some slot)
    (hfail : km = false ∨ ∃ i, i < len ∧ src i = none) :
    ∃ s1 e, device_write s file (some src) len kc km = some (s1, Ret.err e) ∧
      (e = Errno.ENOMEM ∨ e = Errno.EFAULT) ∧
      s1.files = s.files ∧
      (find_channel slot fd.channel_id ≠ none → s1 = s) ∧
      (∀ m id ch, channel_of s m id = some (some ch) → channel_of s1 m id = some (some ch)) ∧
      (∀ m id, m ≠ fd.slot ∨ id ≠ fd.channel_id → channel_of s1 m id = channel_of s m id) ∧
      (find_channel slot fd.channel_id = none →
        channel_of s1 fd.slot fd.channel_id = some none ∨
        channel_of s1 fd.slot fd.channel_id = some (some (channel.mk fd.channel_id none 0))) ∧
      (∀ (g : Nat) (gd : msg_slot_fd) (dst : UserMem) (cap : Nat),
        s.files g = some gd →
        find_channel slot fd.channel_id ≠ none ∨ gd.slot ≠ fd.slot ∨
          gd.channel_id ≠ fd.channel_id →
        (device_read s1 g dst cap).map Prod.snd = (device_read s g dst cap).map Prod.snd) := by
  obtain ⟨s1, e, hw, he1, he2, he3, hex, hnk, hnew⟩ :=
    device_write_fail s file fd slot src len kc km hfd hchan hlen hs hfail
  obtain ⟨hfiles, hframe, hreads⟩ :=
    device_write_frame s s1 file fd (some src) len kc km (Ret.err e) hfd hw
  have hchs : channel_of s fd.slot fd.channel_id
      = some ((find_channel slot fd.channel_id).map Prod.snd) := by
    simp [channel_of, hs]
  refine ⟨s1, e, hw, ?_, hfiles, hex, ?_, hframe, ?_, ?_⟩
  · cases km with
    | false => exact Or.inl (he1 rfl)
    | true =>
      cases hfind : find_channel slot fd.channel_id with
      | some p => exact Or.inr (he2 rfl (Or.inl (by simp [hfind])))
      | none =>
        cases kc with
        | false => exact Or.inl (he3 rfl hfind rfl)
        | true => exact Or.inr (he2 rfl (Or.inr rfl))
  · intro m id ch hch
    by_cases hadd : m ≠ fd.slot ∨ id ≠ fd.channel_id
    · rw [hframe m id hadd]
      exact hch
    · have hm : m = fd.slot := by
        by_contra h
        exact hadd (Or.inl h)
      have hid : id = fd.channel_id := by
        by_contra h
        exact hadd (Or.inr h)
      subst hm
      subst hid
      have hne : find_channel slot fd.channel_id ≠ none := by
        intro h0
        rw [hchs, h0] at hch
        simp at hch
      rw [hex hne]
      exact hch
  · intro hnone
    cases kc with
    | false =>
      rw [hnk hnone rfl, hchs, hnone]
      exact Or.inl rfl
    | true =>
      rw [hnew hnone rfl]
      right
      simp [channel_of, find_channel, find_channel_in]
  · intro g gd dst cap hg hcase
    by_cases hne : find_channel slot fd.channel_id ≠ none
    · rw [hex hne]
    · have hcase1 : gd.slot ≠ fd.slot ∨ gd.channel_id ≠ fd.channel_id := by
        rcases hcase with h | h
        · exact absurd h hne
        · exact h
      exact hreads g gd dst cap hg hcase1

theorem failed_write_effect_witness :
    ∃ s1 e, device_write ex_two 0 (some (user_mem_of [104])) 5 true true
        = some (s1, Ret.err e) ∧ s1 = ex_two ∧
      (device_read s1 0 (user_buf 8) 8).map Prod.snd
        = (device_read ex_two 0 (user_buf 8) 8).map Prod.snd := by
  obtain ⟨s1, e, hw, _, _, hsame, _, _, _, hreads⟩ :=
    failed_write_effect ex_two 0 ex_fd
      (message_slot.mk 3 [channel.mk 7 (some ex_hello) 5]) (user_mem_of [104]) 5 true true
      rfl (by decide) ⟨by decide, by decide⟩ rfl (Or.inr ⟨1, by decide, rfl⟩)
  exact ⟨s1, e, hw, hsame (by decide), hreads 0 ex_fd (user_buf 8) 8 rfl (Or.inl (by decide))⟩

/-- C8 (write without a selected channel). On a handle whose channel id is 0
(none selected) a write returns `-EINVAL` for every buffer and every length,
0 and lengths above 128 included, and leaves the state as it was: no channel is
created. -/
theorem write_no_channel (s : State) (file : Nat) (fd : msg_slot_fd)
    (buffer : Option UserMem) (len : Nat) (kc km : Bool)
    (hfd : s.files file = some fd) (hchan : fd.channel_id = 0) :
    device_write s file buffer len kc km = some (s, Ret.err Errno.EINVAL) := by
  simp [device_write, hfd, hchan]

theorem write_no_channel_witness :
    device_write (device_open init_state 3 0 true true).1 0 (some (user_mem_of ex_hello)) 5
        true true = some ((device_open init_state 3 0 true true).1, Ret.err Errno.EINVAL) ∧
      device_write (device_open init_state 3 0 true true).1 0 none 200
        true true = some ((device_open init_state 3 0 true true).1, Ret.err Errno.EINVAL) :=
  ⟨write_no_channel _ 0 (msg_slot_fd.mk 0 0 3) _ 5 true true rfl rfl,
    write_no_channel _ 0 (msg_slot_fd.mk 0 0 3) _ 200 true true rfl rfl⟩

/-- C9, as stated, fails: on a freshly opened handle that has selected channel
7, to which nothing was ever written, a read returns `-EINVAL` (the channel does
not exist), not the no-data error `-EWOULDBLOCK`. -/
theorem read_never_written_counterexample :
    (device_read ex_state 0 (user_buf 8) 8).map (fun x => x.2.1)
        = some (Ret.err Errno.EINVAL) ∧
      (device_read ex_state 0 (user_buf 8) 8).map (fun x => x.2.1)
        ≠ some (Ret.err Errno.EWOULDBLOCK) :=
  ⟨by decide, by decide⟩

/-- C9 (amended): a read on a handle with no selected channel returns `-EINVAL`;
a read on a handle whose selected channel does not exist in the slot (nothing
was ever written to it) returns `-EINVAL` as well; a read on a handle whose
selected channel exists but holds no payload returns `-EWOULDBLOCK`. In each
case the state and the destination buffer are untouched, and no read, in any
state, returns a zero-length success. -/
theorem read_failure_modes (s : State) (file : Nat) (fd : msg_slot_fd) (dst : UserMem)
    (cap : Nat) (hfd : s.files file = some fd) :
    (fd.channel_id = 0 → device_read s file dst cap = some (s, Ret.err Errno.EINVAL, dst)) ∧
    (fd.channel_id ≠ 0 → ∀ slot, s.message_slots fd.slot = some slot →
      (find_channel slot fd.channel_id = none →
        device_read s file dst cap = some (s, Ret.err Errno.EINVAL, dst)) ∧
      (∀ pos ch, find_channel slot fd.channel_id = some (pos, ch) →
        ch.message_length = 0 ∨ ch.message_data = none →
        device_read s file dst cap = some (s, Ret.err Errno.EWOULDBLOCK, dst))) ∧
    (∀ s1 dst1, device_read s file dst cap ≠ some (s1, Ret.val 0, dst1)) := by
  refine ⟨?_, ?_, ?_⟩
  · intro hc
    simp [device_read, hfd, hc]
  · intro hc slot hs
    refine ⟨?_, ?_⟩
    · intro hfind
      simp [device_read, hfd, hc, hs, hfind]
    · intro pos ch hfind hempty
      simp [device_read, hfd, hc, hs, hfind, hempty]
  · intro s1 dst1 h
    unfold device_read at h
    simp only [hfd] at h
    split_ifs at h with hc
    · simp at h
    · cases hs : s.message_slots fd.slot with
      | none => simp [hs] at h
      | some slot =>
        simp only [hs] at h
        cases hfind : find_channel slot fd.channel_id with
        | none => simp [hfind] at h
        | some p =>
          obtain ⟨pos, ch⟩ := p
          simp only [hfind] at h
          split_ifs at h with h1 h2
          · simp at h
          · simp at h
          · cases hd : ch.message_data with
            | none => simp [hd] at h
            | some data =>
              simp only [hd] at h
              split_ifs at h
              split at h
              · simp only [Option.some.injEq, Prod.mk.injEq, Ret.val.injEq] at h
                exact h1 (Or.inl h.2.1)
              · simp at h

theorem read_failure_modes_witness :
    device_read (device_open init_state 3 0 true true).1 0 (user_buf 8) 8
        = some ((device_open init_state 3 0 true true).1, Ret.err Errno.EINVAL, user_buf 8) ∧
      device_read ex_state 0 (user_buf 8) 8
        = some (ex_state, Ret.err Errno.EINVAL, user_buf 8) :=
  ⟨(read_failure_modes (device_open init_state 3 0 true true).1 0 (msg_slot_fd.mk 0 0 3)
      (user_buf 8) 8 rfl).1 rfl,
    ((read_failure_modes ex_state 0 ex_fd (user_buf 8) 8 rfl).2.1 (by decide)
      (message_slot.mk 3 []) rfl).1 rfl⟩

/-- C10 (read with insufficient capacity). When the selected channel holds a
payload of `n >= 1` bytes (recorded length `n`, an `int`) and the destination
capacity is smaller than `n`, read returns `-ENOSPC`, the destination memory is
exactly what it was (no byte is delivered) and the state, hence the stored
payload, is unchanged. -/
theorem read_insufficient_capacity (s : State) (file : Nat) (fd : msg_slot_fd)
    (slot : message_slot) (pos : Nat) (ch : channel) (data : List Byte) (dst : UserMem)
    (cap : Nat)
    (hfd : s.files file = some fd) (hchan : fd.channel_id ≠ 0)
    (hs : s.message_slots fd.slot = some slot)
    (hfind : find_channel slot fd.channel_id = some (pos, ch))
    (hdata : ch.message_data = some data) (hlen : ch.message_length = (data.length : Int))
    (hpos : 1 ≤ data.length) (hint : data.length < 2147483648)
    (hcap : cap < data.length) :
    device_read s file dst cap = some (s, Ret.err Errno.ENOSPC, dst) := by
  have hsz : size_t_of_int (data.length : Int) = data.length := size_t_of_int_nat _ hint
  have hne : ¬ ((data.length : Int) = 0) := by omega
  simp [device_read, hfd, hchan, hs, hfind, hdata, hlen, hsz, hne, hcap]

theorem read_insufficient_capacity_witness :
    device_read ex_two 0 (user_buf 4) 4 = some (ex_two, Ret.err Errno.ENOSPC, user_buf 4) :=
  read_insufficient_capacity ex_two 0 ex_fd (message_slot.mk 3 [channel.mk 7 (some ex_hello) 5])
    0 (channel.mk 7 (some ex_hello) 5) ex_hello (user_buf 4) 4 rfl (by decide) rfl rfl rfl rfl
    (by decide) (by decide) (by decide)

/-! ## Auxiliary lemmas on sequences of operations -/

/-- The list walk fails exactly when no node has the requested id. -/
theorem find_channel_in_none (l : List channel) (id : Nat)
    (h : find_channel_in l id = none) : ∀ c, c ∈ l → c.channel_id ≠ id := by
  induction l with
  | nil => simp
  | cons curr next ih =>
    simp only [find_channel_in] at h
    split at h
    · simp at h
    · rename_i hne
      split at h
      · rename_i hnone
        intro c hc
        rcases List.mem_cons.mp hc with rfl | hmem
        · exact hne
        · exact ih hnone c hmem
      · simp at h

/-- A node with the requested id makes the list walk succeed. -/
theorem find_channel_in_of_mem (l : List channel) (c : channel) (hc : c ∈ l) :
    ∃ pos c1, find_channel_in l c.channel_id = some (pos, c1) := by
  cases h : find_channel_in l c.channel_id with
  | none => exact absurd rfl (find_channel_in_none l c.channel_id h c hc)
  | some p => exact ⟨p.1, p.2, rfl⟩

/-- Overwriting the found node with a node of the same id keeps the list of
ids. -/
theorem ids_set (l : List channel) (id pos : Nat) (c c1 : channel)
    (h : find_channel_in l id = some (pos, c)) (h1 : c1.channel_id = id) :
    (l.set pos c1).map channel.channel_id = l.map channel.channel_id := by
  induction l generalizing pos with
  | nil => simp [find_channel_in] at h
  | cons curr next ih =>
    simp only [find_channel_in] at h
    split at h
    · rename_i hid
      simp only [Option.some.injEq, Prod.mk.injEq] at h
      obtain ⟨rfl, rfl⟩ := h
      simp [h1, hid]
    · split at h
      · simp at h
      · rename_i p q heq
        simp only [Option.some.injEq, Prod.mk.injEq] at h
        obtain ⟨rfl, rfl⟩ := h
        simp [ih _ heq]

/-- Length of the message a write builds from the caller's buffer. -/
theorem copied_length (cen : Int) (src : UserMem) (len : Nat) (msg : List Byte)
    (hlen : len ≤ 128)
    (h : (if cen ≠ 0 then apply_censorship src (int_of_nat len)
      else
        match copy_from_user src 0 len with
        | none => Except.error Errno.EFAULT
        | some bytes => Except.ok bytes) = Except.ok msg) : msg.length = len := by
  by_cases hc : cen ≠ 0
  · rw [if_pos hc] at h
    exact (apply_censorship_ok src len msg hlen h).1
  · rw [if_neg hc] at h
    split at h
    · simp at h
    · rename_i bytes hb
      simp only [Except.ok.injEq] at h
      subst h
      exact (copy_from_user_some src len 0 bytes hb).1

/-- A stored message of 1..128 bytes with its length recorded satisfies
`payload_ok`. -/
theorem payload_ok_stored (id len : Nat) (msg : List Byte) (h1 : 1 ≤ len) (h128 : len ≤ 128)
    (hm : msg.length = len) : payload_ok (channel.mk id (some msg) (int_of_nat len)) := by
  right
  refine ⟨msg, rfl, by omega, by simp only [MAX_MSG_LEN]; omega, ?_⟩
  simp only [int_of_nat_small len h128, hm]

/-- How a write changes the state: not at all, or by putting a well-formed node
with the selected id in front of the slot's list (when no node had that id), or
by overwriting the node found for that id with such a node. -/
theorem device_write_shape (s s1 : State) (file : Nat) (fd : msg_slot_fd)
    (buffer : Option UserMem) (len : Nat) (kc km : Bool) (r : Ret)
    (hfd : s.files file = some fd)
    (h : device_write s file buffer len kc km = some (s1, r)) :
    s1 = s ∨
    ∃ slot chans1, fd.channel_id ≠ 0 ∧ s.message_slots fd.slot = some slot ∧
      s1 = State.mk (Function.update s.message_slots fd.slot
        (some (message_slot.mk slot.minor_number chans1))) s.files ∧
      ∃ c1, c1.channel_id = fd.channel_id ∧ payload_ok c1 ∧
        ((find_channel_in slot.channels fd.channel_id = none ∧ chans1 = c1 :: slot.channels) ∨
          ∃ pos ch, find_channel_in slot.channels fd.channel_id = some (pos, ch) ∧
            chans1 = slot.channels.set pos c1) := by
  unfold device_write at h
  simp only [hfd] at h
  by_cases hc : fd.channel_id = 0
  · left
    simp [hc] at h
    exact h.1.symm
  · by_cases hl : len = 0 ∨ len > MAX_MSG_LEN
    · left
      simp [hc, hl] at h
      exact h.1.symm
    · simp only [hc, hl, if_false] at h
      have hlen : 1 ≤ len ∧ len ≤ 128 := by
        simp only [MAX_MSG_LEN] at hl
        omega
      cases buffer with
      | none =>
        left
        simp at h
        exact h.1.symm
      | some src =>
        simp only at h
        cases hs : s.message_slots fd.slot with
        | none => simp [hs] at h
        | some slot =>
          simp only [hs] at h
          cases hfind : find_channel slot fd.channel_id with
          | some chan =>
            obtain ⟨pos, ch⟩ := chan
            simp only [hfind] at h
            cases km with
            | false =>
              left
              simp at h
              exact h.1.symm
            | true =>
              simp only [if_true] at h
              split at h
              · left
                simp at h
                exact h.1.symm
              · rename_i msg hcp
                right
                simp only [Option.some.injEq, Prod.mk.injEq] at h
                have hid := (find_channel_in_some _ _ _ _ hfind).2
                refine ⟨slot, slot.channels.set pos
                  (channel.mk ch.channel_id (some msg) (int_of_nat len)), hc, rfl, h.1.symm,
                  channel.mk ch.channel_id (some msg) (int_of_nat len), hid, ?_,
                  Or.inr ⟨pos, ch, hfind, rfl⟩⟩
                exact payload_ok_stored _ len msg hlen.1 hlen.2
                  (copied_length fd.censorship_enabled src len msg hlen.2 hcp)
          | none =>
            simp only [hfind] at h
            cases kc with
            | false =>
              left
              simp [create_channel] at h
              rw [← h.1]
              apply State.ext_fields
              · simp only
                rw [← hs, Function.update_eq_self]
              · rfl
            | true =>
              right
              simp only [create_channel, if_true] at h
              cases km with
              | false =>
                simp at h
                exact ⟨slot, _, hc, rfl, h.1.symm, channel.mk fd.channel_id none 0, rfl,
                  Or.inl ⟨rfl, rfl⟩, Or.inl ⟨hfind, rfl⟩⟩
              | true =>
                simp only [if_true] at h
                split at h
                · simp at h
                  exact ⟨slot, _, hc, rfl, h.1.symm, channel.mk fd.channel_id none 0, rfl,
                    Or.inl ⟨rfl, rfl⟩, Or.inl ⟨hfind, rfl⟩⟩
                · rename_i msg hcp
                  simp only [Option.some.injEq, Prod.mk.injEq, Function.update_idem,
                    List.set_cons_zero] at h
                  exact ⟨slot, _, hc, rfl, h.1.symm,
                    channel.mk fd.channel_id (some msg) (int_of_nat len), rfl,
                    payload_ok_stored _ len msg hlen.1 hlen.2
                      (copied_length fd.censorship_enabled src len msg hlen.2 hcp),
                    Or.inl ⟨hfind, rfl⟩⟩

/-- A read returns the state it was given. -/
theorem device_read_state (s s1 : State) (file : Nat) (dst dst1 : UserMem) (cap : Nat) (r : Ret)
    (h : device_read s file dst cap = some (s1, r, dst1)) : s1 = s := by
  unfold device_read at h
  cases hf : s.files file with
  | none =>
    simp [hf] at h
    exact h.1.symm
  | some fd =>
    simp only [hf] at h
    split_ifs at h with hc
    · simp at h
      exact h.1.symm
    · cases hs : s.message_slots fd.slot with
      | none => simp [hs] at h
      | some slot =>
        simp only [hs] at h
        cases hfind : find_channel slot fd.channel_id with
        | none =>
          simp [hfind] at h
          exact h.1.symm
        | some p =>
          obtain ⟨pos, ch⟩ := p
          simp only [hfind] at h
          split_ifs at h with h1 h2
          · simp at h
            exact h.1.symm
          · simp at h
            exact h.1.symm
          · cases hd : ch.message_data with
            | none =>
              simp [hd] at h
              exact h.1.symm
            | some data =>
              simp only [hd] at h
              split_ifs at h
              split at h
              · simp at h
                exact h.1.symm
              · simp at h
                exact h.1.symm

/-- The initial state is well formed. -/
theorem state_ok_init : state_ok init_state := by
  refine ⟨?_, ?_⟩
  · intro m slot h
    simp [init_state] at h
  · intro file fd h
    simp [init_state] at h

/-- Storing a context that points to an existing slot keeps the state well
formed. -/
theorem state_ok_add_file (s : State) (file : Nat) (fd : msg_slot_fd) (h : state_ok s)
    (hslot : ∃ slot, s.message_slots fd.slot = some slot) :
    state_ok (State.mk s.message_slots (Function.update s.files file (some fd))) := by
  refine ⟨h.1, ?_⟩
  intro g gd hg
  simp only at hg ⊢
  by_cases hgf : g = file
  · subst hgf
    simp only [Function.update_same, Option.some.injEq] at hg
    subst hg
    exact hslot
  · rw [Function.update_noteq hgf] at hg
    exact h.2 g gd hg

/-- Registering an empty slot keeps the state well formed. -/
theorem state_ok_add_slot (s : State) (m : Nat) (minor : Int) (h : state_ok s) :
    state_ok (State.mk (Function.update s.message_slots m (some (message_slot.mk minor [])))
      s.files) := by
  refine ⟨?_, ?_⟩
  · intro m1 slot hm1
    simp only at hm1
    by_cases hmm : m1 = m
    · subst hmm
      simp only [Function.update_same, Option.some.injEq] at hm1
      subst hm1
      exact ⟨by simp, by simp⟩
    · rw [Function.update_noteq hmm] at hm1
      exact h.1 m1 slot hm1
  · intro g gd hg
    simp only at hg ⊢
    by_cases hmm : gd.slot = m
    · rw [hmm]
      exact ⟨_, Function.update_same _ _ _⟩
    · rw [Function.update_noteq hmm]
      exact h.2 g gd hg

/-- Opening a file keeps the state well formed. -/
theorem state_ok_open (s : State) (minor : Int) (file : Nat) (ks kf : Bool) (h : state_ok s) :
    state_ok (device_open s minor file ks kf).1 := by
  by_cases hm : minor < 0 ∨ minor ≥ (MAX_SLOTS : Int)
  · simp only [device_open, hm, if_true]
    exact h
  · cases hs : s.message_slots minor.toNat with
    | some slot =>
      cases kf with
      | false =>
        simp only [device_open, hm, hs, if_false]
        exact h
      | true =>
        simp only [device_open, hm, hs, if_false, if_true]
        exact state_ok_add_file s file _ h ⟨slot, hs⟩
    | none =>
      cases ks with
      | false =>
        simp only [device_open, hm, hs, if_false]
        exact h
      | true =>
        have h1 := state_ok_add_slot s minor.toNat minor h
        cases kf with
        | false =>
          simp only [device_open, hm, hs, if_false, if_true]
          exact h1
        | true =>
          simp only [device_open, hm, hs, if_false, if_true]
          exact state_ok_add_file _ file _ h1 ⟨_, Function.update_same _ _ _⟩

/-- Releasing a file keeps the state well formed. -/
theorem state_ok_release (s : State) (file : Nat) (h : state_ok s) :
    state_ok (device_release s file).1 := by
  refine ⟨h.1, ?_⟩
  intro g gd hg
  simp only [device_release] at hg
  by_cases hgf : g = file
  · subst hgf
    simp at hg
  · rw [Function.update_noteq hgf] at hg
    exact h.2 g gd hg

/-- A control call keeps the state well formed. -/
theorem state_ok_ioctl (s : State) (file cmd param : Nat) (h : state_ok s) :
    state_ok (device_ioctl s file cmd param).1 := by
  obtain ⟨hslots, hother, hself⟩ := device_ioctl_frame s file cmd param
  refine ⟨?_, ?_⟩
  · intro m slot hm
    rw [hslots] at hm
    exact h.1 m slot hm
  · intro g gd hg
    rw [hslots]
    by_cases hgf : g = file
    · subst hgf
      cases hf : s.files g with
      | none =>
        simp [device_ioctl, hf] at hg
      | some fd =>
        obtain ⟨fd1, hfd1, hslot, _⟩ := hself fd hf
        rw [hfd1] at hg
        simp only [Option.some.injEq] at hg
        subst hg
        rw [hslot]
        exact h.2 g fd hf
    · rw [hother g hgf] at hg
      exact h.2 g gd hg

/-- A write keeps the state well formed. -/
theorem state_ok_write (s s1 : State) (file : Nat) (buffer : Option UserMem) (len : Nat)
    (kc km : Bool) (r : Ret) (h : state_ok s)
    (hw : device_write s file buffer len kc km = some (s1, r)) : state_ok s1 := by
  cases hf : s.files file with
  | none =>
    simp [device_write, hf] at hw
    rw [← hw.1]
    exact h
  | some fd =>
    rcases device_write_shape s s1 file fd buffer len kc km r hf hw with hsame | hch
    · rw [hsame]
      exact h
    · obtain ⟨slot, chans1, hc, hs, hs1, c1, hid, hpay, hcase⟩ := hch
      have hslot := h.1 fd.slot slot hs
      have hnew : slot_ok (message_slot.mk slot.minor_number chans1) := by
        rcases hcase with ⟨hnone, hcons⟩ | ⟨pos, ch, hfind, hset⟩
        · subst hcons
          refine ⟨?_, ?_⟩
          · simp only [List.map_cons, List.nodup_cons]
            refine ⟨?_, hslot.1⟩
            intro hmem
            obtain ⟨c, hcm, hce⟩ := List.mem_map.mp hmem
            exact find_channel_in_none _ _ hnone c hcm (by rw [hce, hid])
          · intro c hcm
            rcases List.mem_cons.mp hcm with rfl | hmem
            · exact ⟨by rw [hid]; exact hc, hpay⟩
            · exact hslot.2 c hmem
        · subst hset
          refine ⟨?_, ?_⟩
          · simp only
            rw [ids_set slot.channels fd.channel_id pos ch c1 hfind hid]
            exact hslot.1
          · intro c hcm
            rcases List.mem_or_eq_of_mem_set hcm with hmem | rfl
            · exact hslot.2 c hmem
            · exact ⟨by rw [hid]; exact hc, hpay⟩
      subst hs1
      refine ⟨?_, ?_⟩
      · intro m slot1 hm
        simp only at hm
        by_cases hmm : m = fd.slot
        · subst hmm
          simp only [Function.update_same, Option.some.injEq] at hm
          subst hm
          exact hnew
        · rw [Function.update_noteq hmm] at hm
          exact h.1 m slot1 hm
      · intro g gd hg
        simp only at hg ⊢
        by_cases hmm : gd.slot = fd.slot
        · rw [hmm]
          exact ⟨_, Function.update_same _ _ _⟩
        · rw [Function.update_noteq hmm]
          exact h.2 g gd hg

/-- Every call keeps the state well formed. -/
theorem state_ok_step (s s1 : State) (op : Op) (h : state_ok s) (hs : step s op = some s1) :
    state_ok s1 := by
  cases op with
  | o_open minor file ks kf =>
    simp only [step, Option.some.injEq] at hs
    subst hs
    exact state_ok_open s minor file ks kf h
  | o_release file =>
    simp only [step, Option.some.injEq] at hs
    subst hs
    exact state_ok_release s file h
  | o_ioctl file cmd param =>
    simp only [step, Option.some.injEq] at hs
    subst hs
    exact state_ok_ioctl s file cmd param h
  | o_read file buffer length =>
    simp only [step] at hs
    split at hs
    · simp at hs
    · rename_i r hr
      simp only [Option.some.injEq] at hs
      subst hs
      obtain ⟨s2, ret, dst1⟩ := r
      rw [device_read_state s s2 file buffer dst1 length ret hr]
      exact h
  | o_write file buffer length kc km =>
    simp only [step] at hs
    split at hs
    · simp at hs
    · rename_i r hr
      simp only [Option.some.injEq] at hs
      subst hs
      obtain ⟨s2, ret⟩ := r
      exact state_ok_write s s2 file buffer length kc km ret h hr

/-- Well-formedness is kept along a sequence of calls. -/
theorem state_ok_run (ops : List Op) (s s1 : State) (h : state_ok s)
    (hr : run s ops = some s1) : state_ok s1 := by
  induction ops generalizing s with
  | nil =>
    simp only [run, Option.some.injEq] at hr
    subst hr
    exact h
  | cons op rest ih =>
    simp only [run] at hr
    split at hr
    · simp at hr
    · rename_i s2 hs2
      exact ih s2 (state_ok_step s s2 op h hs2) hr

/-- Every reachable state is well formed. -/
theorem state_ok_reachable (s : State) (h : Reachable s) : state_ok s := by
  obtain ⟨ops, hr⟩ := h
  exact state_ok_run ops init_state s state_ok_init hr

/-- In a well-formed state a read always returns. -/
theorem device_read_total (s : State) (file : Nat) (dst : UserMem) (cap : Nat)
    (h : state_ok s) : ∃ r dst1, device_read s file dst cap = some (s, r, dst1) := by
  unfold device_read
  cases hf : s.files file with
  | none => exact ⟨_, _, rfl⟩
  | some fd =>
    simp only
    by_cases hc : fd.channel_id = 0
    · exact ⟨_, _, by rw [if_pos hc]⟩
    · rw [if_neg hc]
      obtain ⟨slot, hs⟩ := h.2 file fd hf
      simp only [hs]
      cases hfind : find_channel slot fd.channel_id with
      | none => exact ⟨_, _, rfl⟩
      | some p =>
        obtain ⟨pos, ch⟩ := p
        simp only
        have hmem : ch ∈ slot.channels :=
          List.getElem?_mem (find_channel_in_some _ _ _ _ hfind).1
        rcases (h.1 fd.slot slot hs).2 ch hmem with ⟨_, ⟨hnone, h0⟩ | ⟨data, hd, h1, h128, hl⟩⟩
        · exact ⟨_, _, by rw [if_pos (Or.inl h0)]⟩
        · have hne : ¬ (ch.message_length = 0 ∨ ch.message_data = none) := by
            intro hor
            rcases hor with h0 | hn
            · rw [hl] at h0
              omega
            · rw [hd] at hn
              simp at hn
          have hsz : size_t_of_int ch.message_length = data.length := by
            rw [hl]
            exact size_t_of_int_nat _ (by simp only [MAX_MSG_LEN] at h128; omega)
          rw [if_neg hne, hsz]
          by_cases hcap : data.length > cap
          · exact ⟨_, _, by rw [if_pos hcap]⟩
          · rw [if_neg hcap]
            simp only [hd, gt_iff_lt, lt_self_iff_false, if_false]
            cases hcp : copy_to_user dst 0 (List.take data.length data) with
            | mk n buf =>
              cases n with
              | zero => exact ⟨_, _, rfl⟩
              | succ k => exact ⟨_, _, rfl⟩

/-- A write without defined behaviour is one through a context whose slot
pointer refers to no slot. -/
theorem device_write_none (s : State) (file : Nat) (buffer : Option UserMem) (len : Nat)
    (kc km : Bool) (h : device_write s file buffer len kc km = none) :
    ∃ fd, s.files file = some fd ∧ s.message_slots fd.slot = none := by
  unfold device_write at h
  cases hf : s.files file with
  | none => simp [hf] at h
  | some fd =>
    simp only [hf] at h
    by_cases hc : fd.channel_id = 0
    · simp [hc] at h
    · by_cases hl : len = 0 ∨ len > MAX_MSG_LEN
      · simp [hc, hl] at h
      · simp only [hc, hl, if_false] at h
        cases buffer with
        | none => simp at h
        | some src =>
          simp only at h
          cases hs : s.message_slots fd.slot with
          | none => exact ⟨fd, rfl, hs⟩
          | some slot =>
            simp only [hs] at h
            cases hfind : find_channel slot fd.channel_id with
            | some chan =>
              obtain ⟨pos, ch⟩ := chan
              simp only [hfind] at h
              cases km with
              | false => simp at h
              | true =>
                simp only [if_true] at h
                split at h <;> simp at h
            | none =>
              simp only [hfind] at h
              cases kc with
              | false => simp [create_channel] at h
              | true =>
                simp only [create_channel, if_true] at h
                cases km with
                | false => simp at h
                | true =>
                  simp only [if_true] at h
                  split at h <;> simp at h

/-- In a well-formed state a write always returns. -/
theorem device_write_total (s : State) (file : Nat) (buffer : Option UserMem) (len : Nat)
    (kc km : Bool) (h : state_ok s) :
    ∃ s1 r, device_write s file buffer len kc km = some (s1, r) := by
  cases hw : device_write s file buffer len kc km with
  | some p => exact ⟨p.1, p.2, rfl⟩
  | none =>
    obtain ⟨fd, hf, hs⟩ := device_write_none s file buffer len kc km hw
    obtain ⟨slot, hslot⟩ := h.2 file fd hf
    rw [hs] at hslot
    simp at hslot

/-- In a well-formed state every call has defined behaviour. -/
theorem step_total (s : State) (op : Op) (h : state_ok s) : ∃ s1, step s op = some s1 := by
  cases op with
  | o_open minor file ks kf => exact ⟨_, rfl⟩
  | o_release file => exact ⟨_, rfl⟩
  | o_ioctl file cmd param => exact ⟨_, rfl⟩
  | o_read file buffer length =>
    obtain ⟨r, dst1, hr⟩ := device_read_total s file buffer length h
    exact ⟨s, by simp only [step, hr]⟩
  | o_write file buffer length kc km =>
    obtain ⟨s1, r, hw⟩ := device_write_total s file buffer length kc km h
    exact ⟨s1, by simp only [step, hw]⟩

/-- Opening a file keeps every registered slot as it is. -/
theorem device_open_slots (s : State) (minor : Int) (file : Nat) (ks kf : Bool) (m : Nat)
    (slot : message_slot) (h : s.message_slots m = some slot) :
    (device_open s minor file ks kf).1.message_slots m = some slot := by
  by_cases hm : minor < 0 ∨ minor ≥ (MAX_SLOTS : Int)
  · simp only [device_open, hm, if_true]
    exact h
  · cases hs : s.message_slots minor.toNat with
    | some slot1 =>
      cases kf <;> simp only [device_open, hm, hs, if_false, if_true] <;> exact h
    | none =>
      have hne : m ≠ minor.toNat := by
        intro e
        rw [e, hs] at h
        simp at h
      cases ks <;> cases kf <;> simp [device_open, hm, hs, Function.update_noteq hne, h]

/-- What `channel_of` says in terms of the slot's list. -/
theorem channel_of_some (s : State) (m id : Nat) (ch : channel)
    (h : channel_of s m id = some (some ch)) :
    ∃ slot pos, s.message_slots m = some slot ∧ find_channel_in slot.channels id = some (pos, ch) := by
  unfold channel_of at h
  cases hs : s.message_slots m with
  | none => simp [hs] at h
  | some slot =>
    simp only [hs, Option.map_some', Option.some.injEq, find_channel] at h
    cases hf : find_channel_in slot.channels id with
    | none => simp [hf] at h
    | some p =>
      obtain ⟨pos, c⟩ := p
      simp only [hf, Option.map_some', Option.some.injEq] at h
      subst h
      exact ⟨slot, pos, rfl, hf⟩

/-- A channel found before a call is found after it. -/
theorem findable_step (s s1 : State) (op : Op) (hs : step s op = some s1) (m id : Nat)
    (ch : channel) (h : channel_of s m id = some (some ch)) :
    ∃ ch1, channel_of s1 m id = some (some ch1) := by
  cases op with
  | o_open minor file ks kf =>
    simp only [step, Option.some.injEq] at hs
    subst hs
    obtain ⟨slot, pos, hsl, hfind⟩ := channel_of_some s m id ch h
    refine ⟨ch, ?_⟩
    unfold channel_of
    rw [device_open_slots s minor file ks kf m slot hsl]
    simp [find_channel, hfind]
  | o_release file =>
    simp only [step, Option.some.injEq] at hs
    subst hs
    exact ⟨ch, h⟩
  | o_ioctl file cmd param =>
    simp only [step, Option.some.injEq] at hs
    subst hs
    refine ⟨ch, ?_⟩
    unfold channel_of at h ⊢
    rw [(device_ioctl_frame s file cmd param).1]
    exact h
  | o_read file buffer length =>
    simp only [step] at hs
    split at hs
    · simp at hs
    · rename_i r hr
      simp only [Option.some.injEq] at hs
      subst hs
      obtain ⟨s2, ret, dst1⟩ := r
      rw [device_read_state s s2 file buffer dst1 length ret hr]
      exact ⟨ch, h⟩
  | o_write file buffer length kc km =>
    simp only [step] at hs
    split at hs
    · simp at hs
    · rename_i r hr
      simp only [Option.some.injEq] at hs
      subst hs
      obtain ⟨s2, ret⟩ := r
      simp only
      obtain ⟨slot, pos, hsl, hfind⟩ := channel_of_some s m id ch h
      cases hf : s.files file with
      | none =>
        simp [device_write, hf] at hr
        rw [← hr.1]
        exact ⟨ch, h⟩
      | some fd =>
        rcases device_write_shape s s2 file fd buffer length kc km ret hf hr with hsame | hch
        · rw [hsame]
          exact ⟨ch, h⟩
        · obtain ⟨slot0, chans1, _, hs0, hs2, c1, hid, _, hcase⟩ := hch
          subst hs2
          unfold channel_of
          by_cases hmm : m = fd.slot
          · subst hmm
            rw [hsl] at hs0
            simp only [Option.some.injEq] at hs0
            subst hs0
            simp only [Function.update_same, Option.map_some', find_channel, Option.some.injEq]
            rcases hcase with ⟨_, hcons⟩ | ⟨pos1, ch0, hfind0, hset⟩
            · subst hcons
              by_cases hcid : c1.channel_id = id
              · exact ⟨c1, by simp [find_channel_in, hcid]⟩
              · exact ⟨ch, by simp [find_channel_in, hcid, hfind]⟩
            · subst hset
              by_cases hcid : id = fd.channel_id
              · subst hcid
                exact ⟨c1, by rw [find_channel_in_set slot.channels _ pos1 ch0 c1 hfind0 hid]; rfl⟩
              · refine ⟨ch, ?_⟩
                rw [find_channel_in_set_ne slot.channels fd.channel_id id pos1 ch0 c1 hfind0 hid
                  hcid, hfind]
                rfl
          · refine ⟨ch, ?_⟩
            simp only [Function.update_noteq hmm, hsl, Option.map_some', find_channel, hfind]

/-- A channel found in a state is found in every state a sequence of calls
leads to from it. -/
theorem findable_run (ops : List Op) (s s1 : State) (hr : run s ops = some s1) (m id : Nat)
    (ch : channel) (h : channel_of s m id = some (some ch)) :
    ∃ ch1, channel_of s1 m id = some (some ch1) := by
  induction ops generalizing s ch with
  | nil =>
    simp only [run, Option.some.injEq] at hr
    subst hr
    exact ⟨ch, h⟩
  | cons op rest ih =>
    simp only [run] at hr
    split at hr
    · simp at hr
    · rename_i s2 hs2
      obtain ⟨ch2, h2⟩ := findable_step s s2 op hs2 m id ch h
      exact ih s2 hr ch2 h2

/-- In a well-formed state no sequence of calls gets stuck. -/
theorem run_total (ops : List Op) (s : State) (h : state_ok s) : ∃ s1, run s ops = some s1 := by
  induction ops generalizing s with
  | nil => exact ⟨s, rfl⟩
  | cons op rest ih =>
    obtain ⟨s2, hs2⟩ := step_total s op h
    obtain ⟨s1, hs1⟩ := ih s2 (state_ok_step s s2 op h hs2)
    exact ⟨s1, by simp only [run, hs2, hs1]⟩

/-- Whatever it returns, `copy_to_user` leaves the bytes below its target
untouched. -/
theorem copy_to_user_below (data : List Byte) (dst : UserMem) (off : Nat) :
    ∀ j, j < off → (copy_to_user dst off data).2 j = dst j := by
  induction data generalizing dst off with
  | nil =>
    intro j _
    rfl
  | cons b rest ih =>
    intro j hj
    simp only [copy_to_user]
    split
    · rfl
    · rw [ih _ (off + 1) j (by omega), Function.update_noteq (by omega)]

/-- A complete `copy_to_user` has stored every byte. -/
theorem copy_to_user_zero (data : List Byte) (dst dst1 : UserMem) (off : Nat)
    (h : copy_to_user dst off data = (0, dst1)) :
    ∀ i, i < data.length → dst1 (off + i) = data[i]? := by
  induction data generalizing dst off with
  | nil => simp
  | cons b rest ih =>
    simp only [copy_to_user] at h
    split at h
    · simp at h
    · rename_i b0 hb0
      intro i hi
      cases i with
      | zero =>
        have hb := copy_to_user_below rest (Function.update dst off (some b)) (off + 1) off
          (by omega)
        rw [h] at hb
        simp only [Function.update_same] at hb
        simpa using hb
      | succ j =>
        have := ih _ _ h j (by simpa using hi)
        simpa [Nat.add_assoc, Nat.add_comm 1 j] using this

/-- A read that returns a value, in a well-formed state: the value is the size
of the selected channel's message, between 1 and 128, and the message has been
delivered. -/
theorem device_read_val (s s1 : State) (file : Nat) (dst dst1 : UserMem) (cap : Nat) (n : Int)
    (hok : state_ok s) (h : device_read s file dst cap = some (s1, Ret.val n, dst1)) :
    ∃ fd slot pos ch data, s.files file = some fd ∧ s.message_slots fd.slot = some slot ∧
      find_channel slot fd.channel_id = some (pos, ch) ∧ ch.message_data = some data ∧
      n = (data.length : Int) ∧ 1 ≤ data.length ∧ data.length ≤ MAX_MSG_LEN ∧
      data.length ≤ cap ∧ ∀ i, i < data.length → dst1 i = data[i]? := by
  unfold device_read at h
  cases hf : s.files file with
  | none => simp [hf] at h
  | some fd =>
    simp only [hf] at h
    by_cases hc : fd.channel_id = 0
    · simp [hc] at h
    simp only [hc, if_false] at h
    cases hs : s.message_slots fd.slot with
    | none => simp [hs] at h
    | some slot =>
      simp only [hs] at h
      cases hfind : find_channel slot fd.channel_id with
      | none => simp [hfind] at h
      | some p =>
        obtain ⟨pos, ch⟩ := p
        simp only [hfind] at h
        by_cases h1 : ch.message_length = 0 ∨ ch.message_data = none
        · simp [h1] at h
        simp only [h1, if_false] at h
        by_cases h2 : size_t_of_int ch.message_length > cap
        · simp [h2] at h
        simp only [h2, if_false] at h
        cases hd : ch.message_data with
        | none => simp [hd] at h1
        | some data =>
          simp only [hd] at h
          by_cases h3 : size_t_of_int ch.message_length > data.length
          · simp [h3] at h
          simp only [h3, if_false] at h
          have hmem : ch ∈ slot.channels :=
            List.getElem?_mem (find_channel_in_some _ _ _ _ hfind).1
          rcases (hok.1 fd.slot slot hs).2 ch hmem with
            ⟨_, ⟨hnone, _⟩ | ⟨data1, hd1, hl1, hl128, hl⟩⟩
          · rw [hd] at hnone
            simp at hnone
          · rw [hd] at hd1
            simp only [Option.some.injEq] at hd1
            subst hd1
            have hsz : size_t_of_int ch.message_length = data.length := by
              rw [hl]
              exact size_t_of_int_nat _ (by simp only [MAX_MSG_LEN] at hl128; omega)
            rw [hsz, List.take_length] at h
            rw [hsz] at h2
            split at h
            · rename_i buffer1 hcp
              simp only [Option.some.injEq, Prod.mk.injEq, Ret.val.injEq] at h
              obtain ⟨_, hn, hb⟩ := h
              subst hb
              refine ⟨fd, slot, pos, ch, data, rfl, hs, hfind, hd, by rw [← hn, hl], hl1, hl128,
                by omega, ?_⟩
              intro i hi
              have := copy_to_user_zero data dst buffer1 0 hcp i hi
              simpa using this
            · simp at h

/-- A write that returns a value returns the requested length. -/
theorem device_write_val (s s1 : State) (file : Nat) (buffer : Option UserMem) (len : Nat)
    (kc km : Bool) (n : Int)
    (h : device_write s file buffer len kc km = some (s1, Ret.val n)) :
    n = (len : Int) ∧ 1 ≤ len ∧ len ≤ MAX_MSG_LEN := by
  cases buffer with
  | none =>
    unfold device_write at h
    cases hf : s.files file with
    | none => simp [hf] at h
    | some fd =>
      simp only [hf] at h
      split_ifs at h <;> simp at h
  | some src =>
    obtain ⟨_, _, _, _, _, _, _, h1, h128, hn, _⟩ := device_write_ok s s1 file src len kc km n h
    exact ⟨hn, h1, h128⟩

/-- The state `ex_two` is reachable. -/
theorem reachable_ex_two : Reachable ex_two := ⟨ex_ops, rfl⟩

/-- One control call on an open file: the context afterwards, field by field, in
terms of the request and of the value the call returned. -/
theorem device_ioctl_step (s : State) (file cmd param : Nat) (fd : msg_slot_fd)
    (hfd : s.files file = some fd) :
    (device_ioctl s file cmd param).1.files file = some (msg_slot_fd.mk
      (if cmd = MSG_SLOT_CHANNEL ∧ (device_ioctl s file cmd param).2 = Ret.val SUCCESS
        then uint_of_ulong param else fd.channel_id)
      (if cmd = MSG_SLOT_SET_CEN ∧ (device_ioctl s file cmd param).2 = Ret.val SUCCESS
        then int_of_nat (uint_of_ulong param) else fd.censorship_enabled)
      fd.slot) := by
  unfold device_ioctl
  simp only [hfd]
  by_cases hc : cmd = MSG_SLOT_CHANNEL
  · subst hc
    have hne : ¬ MSG_SLOT_CHANNEL = MSG_SLOT_SET_CEN := fun e => set_cen_ne_channel e.symm
    by_cases hp : uint_of_ulong param = 0
    · simp [hp, hfd, hne]
    · simp [hp, hne]
  · by_cases hc2 : cmd = MSG_SLOT_SET_CEN
    · subst hc2
      by_cases hp : uint_of_ulong param ≠ 0 ∧ uint_of_ulong param ≠ 1
      · simp [set_cen_ne_channel, hp, hfd]
      · simp [set_cen_ne_channel, hp]
    · simp [hc, hc2, hfd]

/-! ## Claims on control calls, open, and sequences of operations -/

/-- C11 (read is non-mutating). Whatever a read returns (a length or any error),
the state it returns is the state it was called in: table, slots, channel
payloads and file contexts are unchanged, so the same read issued again returns
the same result and every other read behaves as before. In every reachable state
the read does return. -/
theorem read_non_mutating (s : State) (file : Nat) (dst : UserMem) (cap : Nat) :
    (∀ s1 r dst1, device_read s file dst cap = some (s1, r, dst1) →
      s1 = s ∧ device_read s1 file dst cap = some (s1, r, dst1) ∧
      ∀ g dst2 cap2, device_read s1 g dst2 cap2 = device_read s g dst2 cap2) ∧
    (Reachable s → ∃ r dst1, device_read s file dst cap = some (s, r, dst1)) := by
  refine ⟨?_, ?_⟩
  · intro s1 r dst1 h
    have hs := device_read_state s s1 file dst dst1 cap r h
    subst hs
    exact ⟨rfl, h, fun _ _ _ => rfl⟩
  · intro hr
    exact device_read_total s file dst cap (state_ok_reachable s hr)

theorem read_non_mutating_witness :
    ∃ r dst1, device_read ex_two 0 (user_buf 8) 8 = some (ex_two, r, dst1) ∧
      device_read ex_two 0 (user_buf 8) 8 = some (ex_two, r, dst1) ∧
      (device_read ex_two 0 (user_buf 8) 8).map (fun x => x.2.1) = some (Ret.val 5) := by
  obtain ⟨r, dst1, h⟩ := (read_non_mutating ex_two 0 (user_buf 8) 8).2 reachable_ex_two
  exact ⟨r, dst1, h, ((read_non_mutating ex_two 0 (user_buf 8) 8).1 ex_two r dst1 h).2.1,
    by decide⟩

/-- C12 (selecting channel id 0 is rejected). Whatever the state and the file,
`MSG_SLOT_CHANNEL` with argument 0 returns `-EINVAL` and the state after the
call is the state before it, so the selected channel and the censorship flag of
the handle are what they were. -/
theorem select_zero_rejected (s : State) (file : Nat) :
    device_ioctl s file MSG_SLOT_CHANNEL 0 = (s, Ret.err Errno.EINVAL) := by
  unfold device_ioctl
  cases s.files file with
  | none => rfl
  | some fd => simp [uint_of_ulong]

/-- C13, as stated, fails: the argument 4294967296 is a non-zero `unsigned long`
but the call is rejected with `-EINVAL`, and the non-zero argument 4294967301 is
accepted but selects channel 5. -/
theorem select_truncation_counterexample :
    (4294967296 : Nat) ≠ 0 ∧
      (device_ioctl ex_state 0 MSG_SLOT_CHANNEL 4294967296).2 = Ret.err Errno.EINVAL ∧
      (device_ioctl ex_state 0 MSG_SLOT_CHANNEL 4294967301).2 = Ret.val SUCCESS ∧
      (device_ioctl ex_state 0 MSG_SLOT_CHANNEL 4294967301).1.files 0
        = some (msg_slot_fd.mk 5 0 3) := by
  refine ⟨by decide, by decide, by decide, by decide⟩

/-- C13 (amended): the control argument is converted to `unsigned int` first.
When the converted value (the argument modulo 2^32) is non-zero the call
returns `SUCCESS` and only replaces the handle's channel id by the converted
value; when it is zero the call returns `-EINVAL` and changes nothing. For an
argument below 2^32 the converted value is the argument itself. -/
theorem select_channel_uint (s : State) (file : Nat) (fd : msg_slot_fd) (channel_id : Nat)
    (hfd : s.files file = some fd) :
    (uint_of_ulong channel_id ≠ 0 →
      device_ioctl s file MSG_SLOT_CHANNEL channel_id =
        (State.mk s.message_slots (Function.update s.files file
            (some (msg_slot_fd.mk (uint_of_ulong channel_id) fd.censorship_enabled fd.slot))),
          Ret.val SUCCESS)) ∧
    (uint_of_ulong channel_id = 0 →
      device_ioctl s file MSG_SLOT_CHANNEL channel_id = (s, Ret.err Errno.EINVAL)) ∧
    (channel_id < 4294967296 → uint_of_ulong channel_id = channel_id) := by
  refine ⟨?_, ?_, ?_⟩
  · intro h
    simp [device_ioctl, hfd, h]
  · intro h
    simp [device_ioctl, hfd, h]
  · intro h
    exact Nat.mod_eq_of_lt h

theorem select_channel_uint_witness :
    device_ioctl ex_state 0 MSG_SLOT_CHANNEL 9 =
        (State.mk ex_state.message_slots (Function.update ex_state.files 0
          (some (msg_slot_fd.mk 9 0 3))), Ret.val SUCCESS) ∧
      device_ioctl ex_state 0 MSG_SLOT_CHANNEL 4294967296 = (ex_state, Ret.err Errno.EINVAL) :=
  ⟨(select_channel_uint ex_state 0 ex_fd 9 rfl).1 (by decide),
    (select_channel_uint ex_state 0 ex_fd 4294967296 rfl).2.1 (by decide)⟩

/-- C14, as stated, fails: the argument 4294967297 is neither 0 nor 1, yet
`MSG_SLOT_SET_CEN` returns `SUCCESS` and enables censorship. -/
theorem transform_truncation_counterexample :
    (4294967297 : Nat) ≠ 0 ∧ (4294967297 : Nat) ≠ 1 ∧
      (device_ioctl ex_state 0 MSG_SLOT_SET_CEN 4294967297).2 = Ret.val SUCCESS ∧
      (device_ioctl ex_state 0 MSG_SLOT_SET_CEN 4294967297).1.files 0
        = some (msg_slot_fd.mk 7 1 3) := by
  refine ⟨by decide, by decide, by decide, by decide⟩

/-- C14 (amended): the control argument is converted to `unsigned int` first.
`MSG_SLOT_SET_CEN` returns `SUCCESS` exactly when the converted value (the
argument modulo 2^32) is 0 or 1, and then only replaces the handle's censorship
flag by that value; otherwise it returns `-EINVAL` and changes nothing. For an
argument below 2^32 the converted value is the argument itself. -/
theorem set_transform_uint (s : State) (file : Nat) (fd : msg_slot_fd) (flag : Nat)
    (hfd : s.files file = some fd) :
    (uint_of_ulong flag = 0 ∨ uint_of_ulong flag = 1 →
      device_ioctl s file MSG_SLOT_SET_CEN flag =
        (State.mk s.message_slots (Function.update s.files file
            (some (msg_slot_fd.mk fd.channel_id ((uint_of_ulong flag : Nat) : Int) fd.slot))),
          Ret.val SUCCESS)) ∧
    (¬ (uint_of_ulong flag = 0 ∨ uint_of_ulong flag = 1) →
      device_ioctl s file MSG_SLOT_SET_CEN flag = (s, Ret.err Errno.EINVAL)) ∧
    ((device_ioctl s file MSG_SLOT_SET_CEN flag).2 = Ret.val SUCCESS ↔
      uint_of_ulong flag = 0 ∨ uint_of_ulong flag = 1) ∧
    (flag < 4294967296 → uint_of_ulong flag = flag) := by
  have hyes : uint_of_ulong flag = 0 ∨ uint_of_ulong flag = 1 →
      device_ioctl s file MSG_SLOT_SET_CEN flag =
        (State.mk s.message_slots (Function.update s.files file
            (some (msg_slot_fd.mk fd.channel_id ((uint_of_ulong flag : Nat) : Int) fd.slot))),
          Ret.val SUCCESS) := by
    intro h
    have hn : ¬ (uint_of_ulong flag ≠ 0 ∧ uint_of_ulong flag ≠ 1) := by omega
    have hi : int_of_nat (uint_of_ulong flag) = ((uint_of_ulong flag : Nat) : Int) :=
      int_of_nat_small _ (by omega)
    simp [device_ioctl, hfd, set_cen_ne_channel, hn, hi]
  have hno : ¬ (uint_of_ulong flag = 0 ∨ uint_of_ulong flag = 1) →
      device_ioctl s file MSG_SLOT_SET_CEN flag = (s, Ret.err Errno.EINVAL) := by
    intro h
    have hn : uint_of_ulong flag ≠ 0 ∧ uint_of_ulong flag ≠ 1 := by omega
    simp [device_ioctl, hfd, set_cen_ne_channel, hn]
  refine ⟨hyes, hno, ?_, fun h => Nat.mod_eq_of_lt h⟩
  constructor
  · intro hr
    by_contra hc
    rw [hno hc] at hr
    simp at hr
  · intro h
    rw [hyes h]

theorem set_transform_uint_witness :
    device_ioctl ex_state 0 MSG_SLOT_SET_CEN 1 =
        (State.mk ex_state.message_slots (Function.update ex_state.files 0
          (some (msg_slot_fd.mk 7 1 3))), Ret.val SUCCESS) ∧
      device_ioctl ex_state 0 MSG_SLOT_SET_CEN 2 = (ex_state, Ret.err Errno.EINVAL) :=
  ⟨(set_transform_uint ex_state 0 ex_fd 1 rfl).1 (by decide),
    (set_transform_uint ex_state 0 ex_fd 2 rfl).2.1 (by decide)⟩

/-- C15 (open). For every minor number in [0,256), when the allocations it needs
succeed (`km_slot` matters only if no slot is registered yet), `device_open`
returns `SUCCESS` and stores for the new file a context with no channel
selected (id 0), censorship off, bound to the slot of that minor. If no slot
was registered there, one with an empty channel list is registered; an existing
slot is kept as it is. Every other table entry and the context of every other
file are unchanged. -/
theorem open_creates_handle (s : State) (minor : Int) (file : Nat) (km_slot : Bool)
    (hmin : 0 ≤ minor ∧ minor < (MAX_SLOTS : Int))
    (halloc : km_slot = true ∨ s.message_slots minor.toNat ≠ none) :
    ∃ s1, device_open s minor file km_slot true = (s1, Ret.val SUCCESS) ∧
      s1.files file = some (msg_slot_fd.mk 0 0 minor.toNat) ∧
      (∀ g, g ≠ file → s1.files g = s.files g) ∧
      (∀ m, m ≠ minor.toNat → s1.message_slots m = s.message_slots m) ∧
      (s.message_slots minor.toNat = none →
        s1.message_slots minor.toNat = some (message_slot.mk minor [])) ∧
      (∀ slot, s.message_slots minor.toNat = some slot →
        s1.message_slots minor.toNat = some slot) := by
  have h1 : ¬ (minor < 0 ∨ minor ≥ (MAX_SLOTS : Int)) := by omega
  unfold device_open
  simp only [h1, if_false]
  cases hs : s.message_slots minor.toNat with
  | some slot =>
    refine ⟨_, rfl, ?_, ?_, ?_, ?_, ?_⟩
    · simp
    · intro g hg
      simp [Function.update_noteq hg]
    · intro m _
      rfl
    · intro h
      simp at h
    · intro slot1 h
      simp only [Option.some.injEq] at h
      subst h
      exact hs
  | none =>
    have hk : km_slot = true := by
      rcases halloc with h | h
      · exact h
      · exact absurd hs h
    subst hk
    refine ⟨_, rfl, ?_, ?_, ?_, ?_, ?_⟩
    · simp
    · intro g hg
      simp [Function.update_noteq hg]
    · intro m hm
      simp [Function.update_noteq hm]
    · intro _
      simp
    · intro slot h
      simp at h

theorem open_creates_handle_witness :
    ∃ s1, device_open ex_two 5 2 true true = (s1, Ret.val SUCCESS) ∧
      s1.files 2 = some (msg_slot_fd.mk 0 0 5) ∧
      s1.files 0 = ex_two.files 0 ∧
      s1.message_slots 3 = ex_two.message_slots 3 ∧
      s1.message_slots 5 = some (message_slot.mk 5 []) := by
  obtain ⟨s1, ho, hf, hg, hm, hnew, _⟩ :=
    open_creates_handle ex_two 5 2 true ⟨by decide, by decide⟩ (Or.inl rfl)
  exact ⟨s1, ho, hf, hg 0 (by decide), hm 3 (by decide), hnew rfl⟩

/-- C17 (read distinguishes a missing channel from an empty one). For a handle
with a selected channel, whatever the destination and its capacity (0
included): if the slot has no channel with the selected id, read returns
`-EINVAL`; if it has one that holds no payload (recorded length 0 or no
buffer), read returns `-EWOULDBLOCK`. In both cases state and destination are
untouched. -/
theorem read_missing_vs_empty (s : State) (file : Nat) (fd : msg_slot_fd) (slot : message_slot)
    (dst : UserMem) (cap : Nat)
    (hfd : s.files file = some fd) (hchan : fd.channel_id ≠ 0)
    (hs : s.message_slots fd.slot = some slot) :
    (find_channel slot fd.channel_id = none →
      device_read s file dst cap = some (s, Ret.err Errno.EINVAL, dst)) ∧
    (∀ pos ch, find_channel slot fd.channel_id = some (pos, ch) →
      ch.message_length = 0 ∨ ch.message_data = none →
      device_read s file dst cap = some (s, Ret.err Errno.EWOULDBLOCK, dst)) := by
  refine ⟨?_, ?_⟩
  · intro hfind
    simp [device_read, hfd, hchan, hs, hfind]
  · intro pos ch hfind hempty
    simp [device_read, hfd, hchan, hs, hfind, hempty]

theorem read_missing_vs_empty_witness :
    device_read ex_state 0 (user_buf 0) 0 = some (ex_state, Ret.err Errno.EINVAL, user_buf 0) ∧
      device_read ex_faulted 0 (user_buf 0) 0
        = some (ex_faulted, Ret.err Errno.EWOULDBLOCK, user_buf 0) ∧
      device_read ex_faulted 0 (user_buf 8) 8
        = some (ex_faulted, Ret.err Errno.EWOULDBLOCK, user_buf 8) :=
  ⟨(read_missing_vs_empty ex_state 0 ex_fd (message_slot.mk 3 []) (user_buf 0) 0 rfl
      (by decide) rfl).1 rfl,
    (read_missing_vs_empty ex_faulted 0 ex_fd (message_slot.mk 3 [channel.mk 7 none 0])
      (user_buf 0) 0 rfl (by decide) rfl).2 0 (channel.mk 7 none 0) rfl (Or.inl rfl),
    (read_missing_vs_empty ex_faulted 0 ex_fd (message_slot.mk 3 [channel.mk 7 none 0])
      (user_buf 8) 8 rfl (by decide) rfl).2 0 (channel.mk 7 none 0) rfl (Or.inl rfl)⟩

/-- C18 (control operations touch only their own handle field). A control call
never changes the slot table (so it creates no channel) nor the context of
another file; on its own file it keeps the slot pointer, `MSG_SLOT_CHANNEL`
keeps the censorship flag and `MSG_SLOT_SET_CEN` keeps the channel id. After any
sequence of control calls on an open file, in any order, the table and the
other contexts are as before and the context holds, as channel id, the value of
the last `MSG_SLOT_CHANNEL` call that returned `SUCCESS` and, as censorship
flag, the value of the last `MSG_SLOT_SET_CEN` call that returned `SUCCESS`
(the initial values when there is no such call). -/
theorem control_frame (s : State) (file : Nat) (fd : msg_slot_fd) (cmds : List (Nat × Nat))
    (hfd : s.files file = some fd) :
    (∀ cmd param,
      (device_ioctl s file cmd param).1.message_slots = s.message_slots ∧
      (∀ g, g ≠ file → (device_ioctl s file cmd param).1.files g = s.files g) ∧
      ∃ fd1, (device_ioctl s file cmd param).1.files file = some fd1 ∧ fd1.slot = fd.slot ∧
        (cmd = MSG_SLOT_CHANNEL → fd1.censorship_enabled = fd.censorship_enabled) ∧
        (cmd = MSG_SLOT_SET_CEN → fd1.channel_id = fd.channel_id)) ∧
    (run_ioctls s file cmds).1.message_slots = s.message_slots ∧
    (∀ g, g ≠ file → (run_ioctls s file cmds).1.files g = s.files g) ∧
    (run_ioctls s file cmds).1.files file = some (msg_slot_fd.mk
      (spec_selected_channel fd.channel_id cmds (run_ioctls s file cmds).2)
      (spec_transform fd.censorship_enabled cmds (run_ioctls s file cmds).2)
      fd.slot) := by
  refine ⟨?_, ?_⟩
  · intro cmd param
    obtain ⟨h1, h2, h3⟩ := device_ioctl_frame s file cmd param
    obtain ⟨fd1, hf1, hs1, hc1, hc2⟩ := h3 fd hfd
    refine ⟨h1, h2, fd1, hf1, hs1, ?_, ?_⟩
    · intro e
      exact hc2 (by rw [e]; exact fun e2 => set_cen_ne_channel e2.symm)
    · intro e
      exact hc1 (by rw [e]; exact set_cen_ne_channel)
  · induction cmds generalizing s fd with
    | nil => exact ⟨rfl, fun _ _ => rfl, by simp [run_ioctls, spec_selected_channel,
        spec_transform, hfd]⟩
    | cons c rest ih =>
      obtain ⟨cmd, param⟩ := c
      obtain ⟨h1, h2, _⟩ := device_ioctl_frame s file cmd param
      have hstep := device_ioctl_step s file cmd param fd hfd
      obtain ⟨i1, i2, i3⟩ := ih (device_ioctl s file cmd param).1 _ hstep
      simp only [run_ioctls, spec_selected_channel, spec_transform]
      refine ⟨by rw [i1, h1], ?_, i3⟩
      intro g hg
      rw [i2 g hg, h2 g hg]

theorem control_frame_witness :
    (run_ioctls ex_state 0 [(MSG_SLOT_CHANNEL, 9), (MSG_SLOT_SET_CEN, 1), (MSG_SLOT_CHANNEL, 0),
        (MSG_SLOT_SET_CEN, 5), (MSG_SLOT_CHANNEL, 4)]).1.files 0 = some (msg_slot_fd.mk 4 1 3) ∧
      (run_ioctls ex_state 0 [(MSG_SLOT_CHANNEL, 9), (MSG_SLOT_SET_CEN, 1), (MSG_SLOT_CHANNEL, 0),
        (MSG_SLOT_SET_CEN, 5), (MSG_SLOT_CHANNEL, 4)]).1.message_slots
        = ex_state.message_slots := by
  obtain ⟨_, hslots, _, hfile⟩ := control_frame ex_state 0 ex_fd
    [(MSG_SLOT_CHANNEL, 9), (MSG_SLOT_SET_CEN, 1), (MSG_SLOT_CHANNEL, 0),
      (MSG_SLOT_SET_CEN, 5), (MSG_SLOT_CHANNEL, 4)] rfl
  refine ⟨?_, hslots⟩
  rw [hfile]
  decide

/-- C19 (channel-id uniqueness invariant). In every state reachable from the
state after module load by open, release, ioctl, read and write calls: within
each slot the channel ids are pairwise distinct and none is 0; no further
sequence of calls gets stuck; and after any further sequence of calls every
channel of a slot is still found by its id in that slot. -/
theorem channel_ids_unique (s : State) (hr : Reachable s) :
    (∀ m slot, s.message_slots m = some slot →
      (slot.channels.map channel.channel_id).Nodup ∧
      ∀ ch, ch ∈ slot.channels → ch.channel_id ≠ 0) ∧
    (∀ ops, ∃ s1, run s ops = some s1) ∧
    (∀ ops s1, run s ops = some s1 → ∀ m slot ch, s.message_slots m = some slot →
      ch ∈ slot.channels →
      ∃ slot1 pos ch1, s1.message_slots m = some slot1 ∧
        find_channel slot1 ch.channel_id = some (pos, ch1) ∧
        ch1 ∈ slot1.channels ∧ ch1.channel_id = ch.channel_id) := by
  have hok := state_ok_reachable s hr
  refine ⟨?_, ?_, ?_⟩
  · intro m slot hm
    exact ⟨(hok.1 m slot hm).1, fun ch hch => ((hok.1 m slot hm).2 ch hch).1⟩
  · intro ops
    exact run_total ops s hok
  · intro ops s1 hrun m slot ch hm hch
    obtain ⟨pos0, c0, hf0⟩ := find_channel_in_of_mem slot.channels ch hch
    have hcof : channel_of s m ch.channel_id = some (some c0) := by
      simp [channel_of, hm, find_channel, hf0]
    obtain ⟨ch1, h1⟩ := findable_run ops s s1 hrun m ch.channel_id c0 hcof
    obtain ⟨slot1, pos, hs1, hfind⟩ := channel_of_some s1 m ch.channel_id ch1 h1
    obtain ⟨hget, hid⟩ := find_channel_in_some _ _ _ _ hfind
    exact ⟨slot1, pos, ch1, hs1, hfind, List.getElem?_mem hget, hid⟩

theorem channel_ids_unique_witness :
    (∀ m slot, ex_two.message_slots m = some slot →
      (slot.channels.map channel.channel_id).Nodup ∧
      ∀ ch, ch ∈ slot.channels → ch.channel_id ≠ 0) ∧
    ∃ s1, run ex_two [Op.o_write 1 (some (user_mem_of [104, 105])) 2 true true,
        Op.o_release 0] = some s1 ∧
      channel_of s1 3 7 = some (some (channel.mk 7 (some ex_hello) 5)) ∧
      channel_of s1 3 8 = some (some (channel.mk 8 (some [104, 105]) 2)) :=
  ⟨(channel_ids_unique ex_two reachable_ex_two).1, _, rfl, by decide, by decide⟩

/-- C20 (payload-size invariant). In every reachable state each channel has
either no buffer and recorded length 0, or a buffer of 1..128 bytes whose size
is the recorded length. Hence a read that returns a value returns a number
between 1 and 128 and has delivered that many bytes, the stored message, and a
write that returns a value returns exactly the requested length. -/
theorem payload_size_invariant (s : State) (hr : Reachable s) :
    (∀ m slot ch, s.message_slots m = some slot → ch ∈ slot.channels →
      (ch.message_data = none ∧ ch.message_length = 0) ∨
      ∃ data, ch.message_data = some data ∧ 1 ≤ data.length ∧ data.length ≤ MAX_MSG_LEN ∧
        ch.message_length = (data.length : Int)) ∧
    (∀ file dst cap s1 n dst1, device_read s file dst cap = some (s1, Ret.val n, dst1) →
      1 ≤ n ∧ n ≤ (MAX_MSG_LEN : Int) ∧
      ∃ data : List Byte, (data.length : Int) = n ∧ ∀ i, i < data.length → dst1 i = data[i]?) ∧
    (∀ file buffer len kc km s1 n,
      device_write s file buffer len kc km = some (s1, Ret.val n) → n = (len : Int)) := by
  have hok := state_ok_reachable s hr
  refine ⟨?_, ?_, ?_⟩
  · intro m slot ch hm hch
    exact ((hok.1 m slot hm).2 ch hch).2
  · intro file dst cap s1 n dst1 h
    obtain ⟨_, _, _, _, data, _, _, _, _, hn, h1, h128, _, hb⟩ :=
      device_read_val s s1 file dst dst1 cap n hok h
    refine ⟨by omega, by omega, data, hn.symm, hb⟩
  · intro file buffer len kc km s1 n h
    exact (device_write_val s s1 file buffer len kc km n h).1

theorem payload_size_invariant_witness :
    (∀ m slot ch, ex_two.message_slots m = some slot → ch ∈ slot.channels →
      (ch.message_data = none ∧ ch.message_length = 0) ∨
      ∃ data, ch.message_data = some data ∧ 1 ≤ data.length ∧ data.length ≤ MAX_MSG_LEN ∧
        ch.message_length = (data.length : Int)) ∧
    (device_read ex_two 0 (user_buf 8) 8).map (fun x => x.2.1) = some (Ret.val 5) :=
  ⟨(payload_size_invariant ex_two reachable_ex_two).1, by decide⟩

end MessageSlot
